import Mathlib

/-!
Verification model of the aidb storage engine and its hybrid query pipeline.

The definitions below are a shallow embedding of the Rust source:
`src/storage.rs` (Storage, DocCache, Document and their operations),
`src/models.rs` (catalog entities) and `src/query.rs` (QueryEngine).
Rust machine types are embedded as follows:

* `f32` values are embedded by their 32-bit pattern (`Fin (2 ^ 32)`); the
  code never computes with float arithmetic in the claims under study, it
  only moves the four little-endian bytes around, so the bit pattern is a
  faithful model.
* byte strings (sled keys and values) are embedded as `String` / lists of
  `Fin 256`.
* `HashMap` and sled trees are embedded as association lists with
  set-semantics insertion; `VecDeque` as `List` with the head playing the
  role of the front.
* `serde_json::Value` (an external library type) is embedded by its
  canonical JSON text: equality of values corresponds to equality of the
  canonical texts, and `Value::to_string` is the identity on this
  representation.
* fallible Rust functions returning `Result` are embedded with `Except`;
  `&self` methods that mutate interior state (the cache mutex) are embedded
  by explicit state passing on `Storage`.
-/

/-! ## Bit-level model of f32 and little-endian byte codecs (`src/storage.rs` lines 255-264 and 505-511) -/

/-- A byte: the unit of sled keys and values. -/
def ByteV : Type := Fin 256

/-- An f32 value, represented by its 32-bit pattern. -/
def F32 : Type := Fin (2 ^ 32)

instance : DecidableEq ByteV := instDecidableEqFin 256

instance : DecidableEq F32 := instDecidableEqFin (2 ^ 32)

/-- Model of Rust `f.to_le_bytes()` on an f32 bit pattern: the four
little-endian bytes (`src/storage.rs` line 259). -/
def F32.toLeBytes (f : F32) : List ByteV :=
  [⟨f.val % 256, by omega⟩,
   ⟨f.val / 256 % 256, by omega⟩,
   ⟨f.val / 256 / 256 % 256, by omega⟩,
   ⟨f.val / 256 / 256 / 256 % 256, by omega⟩]

/-- Model of Rust `f32::from_le_bytes([b0, b1, b2, b3])`
(`src/storage.rs` line 288 and line 508). -/
def leToF32 (b0 b1 b2 b3 : ByteV) : F32 :=
  ⟨b0.val + 256 * b1.val + 65536 * b2.val + 16777216 * b3.val, by
    have h0 := b0.isLt
    have h1 := b1.isLt
    have h2 := b2.isLt
    have h3 := b3.isLt
    omega⟩

/-- Serialisation of a vector to bytes, little-endian f32 by f32:
`vector.iter().flat_map(|&f| f.to_le_bytes().to_vec()).collect()`
(`src/storage.rs` lines 257-260). -/
def encodeVector (v : List F32) : List ByteV :=
  (v.map F32.toLeBytes).flatten

/-- Decoding of vector bytes by exact 4-byte chunks, dropping a trailing
partial chunk: `for chunk in vec_bytes.chunks_exact(4)`
(`src/storage.rs` lines 507-510). -/
def decodeLeF32s : List ByteV → List F32
  | b0 :: b1 :: b2 :: b3 :: rest => leToF32 b0 b1 b2 b3 :: decodeLeF32s rest
  | _ => []

/-! ## Data model (`src/models.rs` and `src/storage.rs` lines 18-25) -/

/-- Model of `serde_json::Value` by its canonical JSON text; see the header
comment. `to_string` on this representation is the identity. -/
def JsonValue : Type := String

instance : DecidableEq JsonValue := instDecidableEqString

/-- Rendering of a `serde_json::Value` to a string (`Value::to_string`);
the identity on the canonical-text representation. -/
def JsonValue.render (v : JsonValue) : String := v

/-- Document struct (`src/storage.rs` lines 18-25). -/
structure Document where
  id : String
  text : String
  category : String
  vector : List F32
  metadata : JsonValue
deriving DecidableEq

/-- User (`src/models.rs` lines 3-8). -/
structure User where
  username : String
  password_hash : String
  tenants : List String
deriving DecidableEq

/-- Tenant (`src/models.rs` lines 10-16). -/
structure Tenant where
  id : String
  name : String
  owner_id : String
  environments : List String
deriving DecidableEq

/-- Environment (`src/models.rs` lines 18-24). -/
structure Environment where
  id : String
  name : String
  tenant_id : String
  collections : List String
deriving DecidableEq

/-- Collection (`src/models.rs` lines 26-31). -/
structure Collection where
  id : String
  name : String
  environment_id : String
deriving DecidableEq

/-! ## Association-list model of sled trees and HashMap -/

/-- Lookup in an association list keyed by strings; models both
`sled::Tree::get` and `HashMap::get`. -/
def kvGet {V : Type} : List (String × V) → String → Option V
  | [], _ => none
  | p :: rest, k => if p.1 = k then some p.2 else kvGet rest k

/-- Removal of a key; models `sled::Tree::remove` and `HashMap::remove`
(on a no-duplicate-keys list they remove the unique binding). -/
def kvErase {V : Type} : List (String × V) → String → List (String × V)
  | [], _ => []
  | p :: rest, k => if p.1 = k then kvErase rest k else p :: kvErase rest k

/-- Overwriting insertion; models `sled::Tree::insert` and the
remove-then-insert use of `HashMap::insert`. -/
def kvSet {V : Type} (l : List (String × V)) (k : String) (v : V) : List (String × V) :=
  (k, v) :: kvErase l k

/-- Byte-wise prefix test on keys, models the prefix criterion of
`sled::Tree::scan_prefix`. -/
def hasPfx (p s : String) : Bool :=
  p.data.isPrefixOf s.data

/-- Model of `sled::Tree::scan_prefix(prefix)`: all entries whose key has
the given prefix. -/
def scanPfx {V : Type} (l : List (String × V)) (p : String) : List (String × V) :=
  l.filter (fun kv => hasPfx p kv.1)

/-- Model of Rust `str::split(sep)` on the character list of a string:
splits at every separator, keeping empty segments, and yields one (empty)
segment for the empty input. -/
def splitChar (sep : Char) : List Char → List (List Char)
  | [] => [[]]
  | c :: rest =>
    if c = sep then [] :: splitChar sep rest
    else
      match splitChar sep rest with
      | h :: t => (c :: h) :: t
      | [] => [[c]]

/-! ## Size-bounded LRU document cache (`src/storage.rs` lines 44-124) -/

/-- Cache entry (`src/storage.rs` lines 44-48). -/
structure CacheEntry where
  doc : Document
  size_bytes : Nat
deriving DecidableEq

/-- DocCache (`src/storage.rs` lines 50-56). The recency sequence
`lru_order` has its head as the front (most recent). -/
structure DocCache where
  capacity_bytes : Nat
  size_bytes : Nat
  entries : List (String × CacheEntry)
  lru_order : List String
deriving DecidableEq

/-- Size estimate for a document (`src/storage.rs` lines 113-119):
`id.len() + text.len() + category.len() + 4 * vector.len()
 + metadata.to_string().len()`. -/
def estimate_doc_size_bytes (doc : Document) : Nat :=
  doc.id.length + doc.text.length + doc.category.length
    + doc.vector.length * 4 + (JsonValue.render doc.metadata).length

/-- DocCache::new (`src/storage.rs` lines 59-66). -/
def DocCache.new (capacity_bytes : Nat) : DocCache :=
  { capacity_bytes := capacity_bytes
    size_bytes := 0
    entries := []
    lru_order := [] }

/-- DocCache::get (`src/storage.rs` lines 68-75 together with `touch`,
lines 107-110): on a hit, the key is moved to the front of the recency
sequence and a clone of the document is returned. -/
def DocCache.getOp (c : DocCache) (id : String) : Option Document × DocCache :=
  match kvGet c.entries id with
  | some e =>
    (some e.doc,
     { c with lru_order := id :: c.lru_order.filter (fun k => k != id) })
  | none => (none, c)

/-- Model of `VecDeque::pop_back`: removes and returns the last element. -/
def popBack (l : List String) : Option (List String × String) :=
  match l.reverse with
  | [] => none
  | x :: xs => some (xs.reverse, x)

/-- The eviction loop of DocCache::insert (`src/storage.rs` lines 86-94):
while the new entry does not fit, pop the least recently used key and drop
its entry; stop if the recency sequence is exhausted. The Rust `while`
loop runs at most one iteration per element of `lru_order` (each iteration
pops one), so running it with fuel `lru_order.length` is exact: when the
fuel is spent the sequence is empty and the loop would break anyway. -/
def evictFuel : Nat → DocCache → Nat → DocCache
  | 0, c, _ => c
  | Nat.succ n, c, needed =>
    if c.size_bytes + needed > c.capacity_bytes then
      match popBack c.lru_order with
      | none => c
      | some (rest, evict_id) =>
        match kvGet c.entries evict_id with
        | some ev =>
          evictFuel n
            { c with
              lru_order := rest
              entries := kvErase c.entries evict_id
              size_bytes := c.size_bytes - ev.size_bytes } needed
        | none => evictFuel n { c with lru_order := rest } needed
    else c

/-- DocCache::insert (`src/storage.rs` lines 77-98): skip if the document
alone exceeds the capacity; otherwise drop any existing entry for the key
(with its size and recency slot), evict from the back until the new entry
fits, then insert at the front. Subtraction is `saturating_sub`, which is
Nat subtraction. -/
def DocCache.insertOp (c : DocCache) (id : String) (doc : Document) : DocCache :=
  let size := estimate_doc_size_bytes doc
  if size > c.capacity_bytes then c
  else
    let c1 :=
      match kvGet c.entries id with
      | some existing =>
        { c with
          entries := kvErase c.entries id
          size_bytes := c.size_bytes - existing.size_bytes
          lru_order := c.lru_order.filter (fun k => k != id) }
      | none => c
    let c2 := evictFuel c1.lru_order.length c1 size
    { c2 with
      size_bytes := c2.size_bytes + size
      lru_order := id :: c2.lru_order
      entries := (id, ⟨doc, size⟩) :: c2.entries }

/-- DocCache::remove (`src/storage.rs` lines 100-105). -/
def DocCache.removeOp (c : DocCache) (id : String) : DocCache :=
  match kvGet c.entries id with
  | some e =>
    { c with
      entries := kvErase c.entries id
      size_bytes := c.size_bytes - e.size_bytes
      lru_order := c.lru_order.filter (fun k => k != id) }
  | none => c

/-! ## Storage (`src/storage.rs` lines 27-153) -/

/-- The single-row metadata batch built by `create_metadata_batch(id, text)`
(`src/storage.rs` lines 518-534): an (id, text) pair. -/
def MetaBatch : Type := String × String

instance : DecidableEq MetaBatch := instDecidableEqProd

/-- Storage (`src/storage.rs` lines 29-42): the named sled trees plus the
mutex-guarded document cache, each tree an association list from string
keys to decoded values (serde round-trips values bit-for-bit, so trees
store the decoded form). -/
structure Storage where
  metadata_tree : List (String × MetaBatch)
  vector_tree : List (String × List ByteV)
  doc_tree : List (String × Document)
  user_tree : List (String × User)
  tenant_tree : List (String × Tenant)
  env_tree : List (String × Environment)
  collection_tree : List (String × Collection)
  doc_cache : DocCache

/-- Storage::open (`src/storage.rs` lines 131-153) on a fresh directory:
all trees empty and a fresh cache. The capacity in bytes is computed from
the `AIDB_CACHE_MB` environment variable by the caller of this model. -/
def Storage.openFresh (capacity_bytes : Nat) : Storage :=
  { metadata_tree := []
    vector_tree := []
    doc_tree := []
    user_tree := []
    tenant_tree := []
    env_tree := []
    collection_tree := []
    doc_cache := DocCache.new capacity_bytes }

/-! ## Catalog CRUD (`src/storage.rs` lines 155-239) -/

/-- Storage::create_user (`src/storage.rs` lines 156-164): fails when the
username is already a key of the `users` tree, otherwise stores the user
under the username. The pair returns the result together with the
post-state. -/
def Storage.create_user (s : Storage) (user : User) : Except String Unit × Storage :=
  if (kvGet s.user_tree user.username).isSome then
    (.error "User already exists", s)
  else
    (.ok (), { s with user_tree := kvSet s.user_tree user.username user })

/-- Storage::get_user (`src/storage.rs` lines 166-173). -/
def Storage.get_user (s : Storage) (username : String) : Option User :=
  kvGet s.user_tree username

/-- Storage::update_user (`src/storage.rs` lines 175-179): unconditional
overwrite. -/
def Storage.update_user (s : Storage) (user : User) : Except String Unit × Storage :=
  (.ok (), { s with user_tree := kvSet s.user_tree user.username user })

/-- Storage::create_tenant (`src/storage.rs` lines 182-186): unconditional
overwrite keyed by the tenant id. -/
def Storage.create_tenant (s : Storage) (tenant : Tenant) : Except String Unit × Storage :=
  (.ok (), { s with tenant_tree := kvSet s.tenant_tree tenant.id tenant })

/-- Storage::get_tenant (`src/storage.rs` lines 188-195). -/
def Storage.get_tenant (s : Storage) (id : String) : Option Tenant :=
  kvGet s.tenant_tree id

/-- Storage::update_tenant (`src/storage.rs` lines 197-201): same body as
create_tenant. -/
def Storage.update_tenant (s : Storage) (tenant : Tenant) : Except String Unit × Storage :=
  (.ok (), { s with tenant_tree := kvSet s.tenant_tree tenant.id tenant })

/-- Storage::create_environment (`src/storage.rs` lines 204-208). -/
def Storage.create_environment (s : Storage) (env : Environment) : Except String Unit × Storage :=
  (.ok (), { s with env_tree := kvSet s.env_tree env.id env })

/-- Storage::get_environment (`src/storage.rs` lines 210-217). -/
def Storage.get_environment (s : Storage) (id : String) : Option Environment :=
  kvGet s.env_tree id

/-- Storage::update_environment (`src/storage.rs` lines 219-223): same
body as create_environment. -/
def Storage.update_environment (s : Storage) (env : Environment) : Except String Unit × Storage :=
  (.ok (), { s with env_tree := kvSet s.env_tree env.id env })

/-- Storage::create_collection (`src/storage.rs` lines 226-230):
unconditional overwrite keyed by the collection id. -/
def Storage.create_collection (s : Storage) (col : Collection) : Except String Unit × Storage :=
  (.ok (), { s with collection_tree := kvSet s.collection_tree col.id col })

/-- Storage::get_collection (`src/storage.rs` lines 232-239). -/
def Storage.get_collection (s : Storage) (id : String) : Option Collection :=
  kvGet s.collection_tree id

/-! ## Document store (`src/storage.rs` lines 241-514) -/

/-- Storage::insert (`src/storage.rs` lines 242-267): writes the metadata
batch and the little-endian encoded vector under the given id in the
`metadata` and `vectors` trees. -/
def Storage.insert (s : Storage) (id : String) (metadata_batch : MetaBatch)
    (vector : List F32) : Storage :=
  { s with
    metadata_tree := kvSet s.metadata_tree id metadata_batch
    vector_tree := kvSet s.vector_tree id (encodeVector vector) }

/-- Helper create_metadata_batch (`src/storage.rs` lines 518-534): a
single-row (id, text) batch. -/
def create_metadata_batch (id text : String) : MetaBatch := (id, text)

/-- Storage::insert_doc (`src/storage.rs` lines 305-323): store the
document under the compound key `collection_id ++ "/" ++ doc.id` in the
`docs` tree, sync metadata and vector under the same key, and insert the
document into the cache. -/
def Storage.insert_doc (s : Storage) (doc : Document) (collection_id : String) : Storage :=
  let key := collection_id ++ "/" ++ doc.id
  let s1 := { s with doc_tree := kvSet s.doc_tree key doc }
  let s2 := s1.insert key (create_metadata_batch doc.id doc.text) doc.vector
  { s2 with doc_cache := s2.doc_cache.insertOp key doc }

/-- Storage::get_doc_with_cache_status (`src/storage.rs` lines 334-353):
cache lookup first (a hit returns `from_cache = true` and touches the
recency sequence); on a miss, read the `docs` tree, insert into the cache,
and return `from_cache = false`; error when absent from both. -/
def Storage.get_doc_with_cache_status (s : Storage) (key : String) :
    Except String ((Document × Bool) × Storage) :=
  match s.doc_cache.getOp key with
  | (some doc, cache1) => .ok ((doc, true), { s with doc_cache := cache1 })
  | (none, _) =>
    match kvGet s.doc_tree key with
    | some doc =>
      .ok ((doc, false), { s with doc_cache := s.doc_cache.insertOp key doc })
    | none => .error "Document not found"

/-- Storage::get_doc (`src/storage.rs` lines 327-331): compound key, then
get_doc_with_cache_status with the flag dropped. -/
def Storage.get_doc (s : Storage) (collection_id id : String) :
    Except String (Document × Storage) :=
  (s.get_doc_with_cache_status (collection_id ++ "/" ++ id)).map
    (fun r => (r.1.1, r.2))

/-- Projection of Storage.get_doc to the returned document. -/
def Storage.get_doc_fst (s : Storage) (collection_id id : String) :
    Except String Document :=
  (s.get_doc collection_id id).map (fun r => r.1)

/-- Projection of Storage.get_doc_with_cache_status to the returned
(document, from_cache) pair. -/
def Storage.wcs_fst (s : Storage) (key : String) : Except String (Document × Bool) :=
  (s.get_doc_with_cache_status key).map (fun r => r.1)

/-- The post-state of Storage.get_doc_with_cache_status (unchanged state on
error). -/
def Storage.wcs_next (s : Storage) (key : String) : Storage :=
  match s.get_doc_with_cache_status key with
  | .ok (_, s1) => s1
  | .error _ => s

/-- Storage::update_doc (`src/storage.rs` lines 431-448): identical write
path to insert_doc (upsert). -/
def Storage.update_doc (s : Storage) (doc : Document) (collection_id : String) : Storage :=
  let key := collection_id ++ "/" ++ doc.id
  let s1 := { s with doc_tree := kvSet s.doc_tree key doc }
  let s2 := s1.insert key (create_metadata_batch doc.id doc.text) doc.vector
  { s2 with doc_cache := s2.doc_cache.insertOp key doc }

/-- Storage::delete_doc (`src/storage.rs` lines 451-461). -/
def Storage.delete_doc (s : Storage) (collection_id id : String) : Storage :=
  let key := collection_id ++ "/" ++ id
  { s with
    doc_tree := kvErase s.doc_tree key
    metadata_tree := kvErase s.metadata_tree key
    vector_tree := kvErase s.vector_tree key
    doc_cache := s.doc_cache.removeOp key }

/-- Loop body of Storage::delete_collection (`src/storage.rs` lines
467-479): remove one scanned key from the three document trees and the
cache. -/
def dcStep (acc : Storage) (k : String) : Storage :=
  { acc with
    doc_tree := kvErase acc.doc_tree k
    metadata_tree := kvErase acc.metadata_tree k
    vector_tree := kvErase acc.vector_tree k
    doc_cache := acc.doc_cache.removeOp k }

/-- Storage::delete_collection (`src/storage.rs` lines 464-491): remove
every key found by the `docs` prefix scan from the `docs`, `metadata` and
`vectors` trees and from the cache; remove the collection entity; then
read-modify-write the environment, dropping the collection id from its
child list (`env.collections.retain(|id| id != col_id)`,
update_environment keys the write by `env.id`). -/
def Storage.delete_collection (s : Storage) (env_id col_id : String) : Storage :=
  let pfx := col_id ++ "/"
  let keys := (scanPfx s.doc_tree pfx).map (fun kv => kv.1)
  let s1 := keys.foldl dcStep s
  let s2 := { s1 with collection_tree := kvErase s1.collection_tree col_id }
  match s2.get_environment env_id with
  | some env =>
    (s2.update_environment
      { env with collections := env.collections.filter (fun id => id != col_id) }).2
  | none => s2

/-- Storage::get_docs_in_collection (`src/storage.rs` lines 415-424). -/
def Storage.get_docs_in_collection (s : Storage) (collection_id : String) : List Document :=
  (scanPfx s.doc_tree (collection_id ++ "/")).map (fun kv => kv.2)

/-- The doc-id extraction of get_vectors_in_collection
(`src/storage.rs` lines 500-503): split the key on the slash character and
take the second part if there is one, else fall back to the whole key. -/
def extractDocId (key_str : String) : String :=
  let parts := (splitChar '/' key_str.data).map (fun l => String.mk l)
  match parts with
  | _ :: id :: _ => id
  | _ => key_str

/-- Storage::get_vectors_in_collection (`src/storage.rs` lines 494-514):
prefix scan over the `vectors` tree, doc-id extraction by split on the
slash, and little-endian f32 decoding of the value bytes. -/
def Storage.get_vectors_in_collection (s : Storage) (collection_id : String) :
    List (String × List F32) :=
  (scanPfx s.vector_tree (collection_id ++ "/")).map
    (fun kv => (extractDocId kv.1, decodeLeF32s kv.2))

/-! ## Columnar projection and the query engine (`src/storage.rs` lines 361-412, `src/query.rs`) -/

/-- The four-column string batch produced by the projector
(`src/storage.rs` lines 389-394): columns id, text, category and the
stringified vector, one list element per row. -/
structure ArrowBatch where
  ids : List String
  texts : List String
  categories : List String
  vector_strs : List String
deriving DecidableEq

/-- Rendering of one f32 inside `serde_json::to_string(&doc.vector)`.
The external serialiser prints a decimal form of the float; the model
prints the bit pattern. Only the bracket-and-comma list structure of the
result is relied on by the development, never the digits. -/
def f32JsonStr (f : F32) : String := toString f.val

/-- Model of `serde_json::to_string(&doc.vector)` (`src/storage.rs` line
377): a JSON array literal of the elements, hence exactly "[]" for the
empty vector. -/
def jsonOfVector (v : List F32) : String :=
  "[" ++ String.intercalate "," (v.map f32JsonStr) ++ "]"

/-- Storage::project_collection_to_arrow (`src/storage.rs` lines 361-412):
scan the `docs` tree by the collection prefix, one row per document with
the vector stringified; when no document was scanned, emit the single-row
sentinel batch of empty strings with "[]" in the vector column. -/
def Storage.project_collection_to_arrow (s : Storage) (collection_id : String) : ArrowBatch :=
  let docs := (scanPfx s.doc_tree (collection_id ++ "/")).map (fun kv => kv.2)
  let ids := docs.map (fun d => d.id)
  let texts := docs.map (fun d => d.text)
  let categories := docs.map (fun d => d.category)
  let vector_strs := docs.map (fun d => jsonOfVector d.vector)
  if ids.isEmpty then
    { ids := [""], texts := [""], categories := [""], vector_strs := ["[]"] }
  else
    { ids := ids, texts := texts, categories := categories, vector_strs := vector_strs }

/-- The SQL string composed by QueryEngine::hybrid_query
(`src/query.rs` lines 69-73). -/
def composeSql (sql_filter : String) : String :=
  if sql_filter = "" then "SELECT * FROM docs"
  else "SELECT * FROM docs WHERE " ++ sql_filter

/-- Inner body of step 3 of hybrid_query (`src/query.rs` lines 81-87):
one id of an Arrow result batch is turned into the compound key and
hydrated through get_doc_with_cache_status; on success the
`(doc, from_cache)` pair is appended, on error the id is silently
skipped. The storage (cache) state threads through. -/
def hydrateId (collection_id : String) (acc2 : List (Document × Bool) × Storage)
    (id : String) : List (Document × Bool) × Storage :=
  let key := collection_id ++ "/" ++ id
  match acc2.2.get_doc_with_cache_status key with
  | .ok ((doc, from_cache), s1) => (acc2.1 ++ [(doc, from_cache)], s1)
  | .error _ => acc2

/-- Per-batch body of step 3 of hybrid_query (`src/query.rs` lines
78-88): walk column 0 (the ids) of one result batch. -/
def hydrateBatch (collection_id : String) (acc : List (Document × Bool) × Storage)
    (batch : ArrowBatch) : List (Document × Bool) × Storage :=
  batch.ids.foldl (hydrateId collection_id) acc

/-- Step 3 of hybrid_query (`src/query.rs` lines 77-89): hydrate every id
of every result batch in order. -/
def hydrateBatches (s : Storage) (collection_id : String) (batches : List ArrowBatch) :
    List (Document × Bool) × Storage :=
  batches.foldl (hydrateBatch collection_id) ([], s)

/-- QueryEngine::hybrid_query (`src/query.rs` lines 55-92). The external
DataFusion engine (`execute_sql`, an awaited library call) is passed in as
the function `sqlExec` from the SQL text to the result batches; the model
fixes everything else from the source: the ANN candidate set is computed
and discarded (the source binds it to `_candidate_ids`), the SQL text is
composed by `composeSql`, the rows are hydrated and the list truncated to
`top_k`. -/
def QueryEngine.hybrid_query (s : Storage) (collection_id : String)
    (sqlExec : String → List ArrowBatch) (sql_filter : String)
    (query_vector : List F32) (top_k : Nat) : List (Document × Bool) × Storage :=
  let _vectors := s.get_vectors_in_collection collection_id
  let _candidate_ids := (query_vector, top_k * 2)
  let sql := composeSql sql_filter
  let sql_results := sqlExec sql
  let r := hydrateBatches s collection_id sql_results
  (r.1.take top_k, r.2)

/-! ## Cache invariant: reachable cache states -/

/-- Sum of the stored entry sizes of a cache entry map. -/
def sumSizes (l : List (String × CacheEntry)) : Nat :=
  (l.map (fun p => p.2.size_bytes)).sum

/-- The inductive invariant of DocCache maintained by get, insert and
remove: no duplicate keys in the map or the recency sequence, the recency
sequence holds exactly the mapped keys, the size counter equals the summed
entry sizes, and the counter stays within the capacity. -/
structure CacheInv (c : DocCache) : Prop where
  keys_nodup : (c.entries.map (fun p => p.1)).Nodup
  lru_nodup : c.lru_order.Nodup
  mem_iff : ∀ k, k ∈ c.lru_order ↔ (kvGet c.entries k).isSome = true
  sum_eq : sumSizes c.entries = c.size_bytes
  le_cap : c.size_bytes ≤ c.capacity_bytes

/-- Cache states reachable from a fresh cache by any sequence of the three
operations. -/
inductive CacheReachable : DocCache → Prop where
  | new (capacity_bytes : Nat) : CacheReachable (DocCache.new capacity_bytes)
  | getStep (c : DocCache) (id : String) :
      CacheReachable c → CacheReachable (c.getOp id).2
  | insertStep (c : DocCache) (id : String) (doc : Document) :
      CacheReachable c → CacheReachable (c.insertOp id doc)
  | removeStep (c : DocCache) (id : String) :
      CacheReachable c → CacheReachable (c.removeOp id)

/-! ## Sample values for witnesses and counterexamples -/

/-- A sample f32 bit pattern. -/
def f32One : F32 := ⟨1, by norm_num⟩

/-- A small sample document (estimated size 5 bytes: one id byte plus the
four bytes of the rendered metadata "null"). -/
def docXSmall : Document :=
  { id := "x", text := "", category := "", vector := [], metadata := "null" }

/-- A larger document with the same id (estimated size 17 bytes). -/
def docXBig : Document :=
  { id := "x", text := "0123456789ab", category := "", vector := [], metadata := "null" }

/-- A document whose id contains a slash. -/
def docSlash : Document :=
  { id := "a/b", text := "", category := "", vector := [f32One], metadata := "null" }

/-- A sample user. -/
def userAdmin : User :=
  { username := "admin", password_hash := "h", tenants := [] }

/-- A sample tenant. -/
def tenantT : Tenant :=
  { id := "t1", name := "tenant", owner_id := "admin", environments := [] }

/-- A sample environment that lists collection "k". -/
def envE : Environment :=
  { id := "e1", name := "env", tenant_id := "t1", collections := ["k"] }

/-- A sample collection. -/
def collK : Collection :=
  { id := "k", name := "coll", environment_id := "e1" }

/-- A state holding the small document in the docs tree with a cold
cache. -/
def storageDocOnly : Storage :=
  { Storage.openFresh 100 with doc_tree := [("c/x", docXSmall)] }

/-- Concrete state for the C4 witness: a fresh store with environment
"e1" (listing collection "k") and one document inserted in collection
"k". -/
def storageC4 : Storage :=
  (((Storage.openFresh 100).create_environment envE).2).insert_doc docXSmall "k"

/-- The environment stored under "e1" after the deletion: the collections
list has been emptied. -/
def envEdel : Environment :=
  { id := "e1", name := "env", tenant_id := "t1", collections := [] }

/-- An id of an SQL result row is dead for a hydration run started at
state `s` when its compound key is absent from both the cache and the
docs tree. The docs tree never changes during hydration and hydration
only ever caches keys it found in the docs tree, so an id dead at the
start stays dead at every intermediate state of the run. -/
def hydrationDead (s : Storage) (col id : String) : Bool :=
  (kvGet s.doc_cache.entries (col ++ "/" ++ id)).isNone &&
    (kvGet s.doc_tree (col ++ "/" ++ id)).isNone

/-- Removal of the dead ids from the id column of one SQL result batch
(the other columns are not read by the hydration loop). -/
def dropDeadIds (s : Storage) (col : String) (b : ArrowBatch) : ArrowBatch :=
  { b with ids := b.ids.filter (fun id => !(hydrationDead s col id)) }

/-- Invariant of the hydration loop relative to its start state: the docs
tree is untouched and every key that was dead at the start is still
absent from the cache. -/
def hydrationInv (s0 : Storage) (col : String) (s1 : Storage) : Prop :=
  s1.doc_tree = s0.doc_tree ∧
  ∀ id, hydrationDead s0 col id = true →
    kvGet s1.doc_cache.entries (col ++ "/" ++ id) = none

/-- Mixed-result state for the C10 witness: the docs tree and the cache
hold document "x" of collection "c", nothing else. -/
def storageMix : Storage :=
  (Storage.openFresh 100).insert_doc docXSmall "c"

/-- An SQL result batch naming one hydratable id ("x") and one id with no
stored document ("ghost"). -/
def ghostBatch : ArrowBatch :=
  { ids := ["x", "ghost"], texts := ["", ""], categories := ["", ""],
    vector_strs := ["[]", "[]"] }

/-- An SQL engine behaviour returning the mixed batch for every query. -/
def ghostEngine : String → List ArrowBatch := fun _ => [ghostBatch]

/-! ## Lemmas about the association-list operations -/

theorem kvGet_kvSet_self {V : Type} (l : List (String × V)) (k : String) (v : V) :
    kvGet (kvSet l k v) k = some v := by
  simp [kvSet, kvGet]

theorem kvGet_kvErase {V : Type} (l : List (String × V)) (k k' : String) :
    kvGet (kvErase l k) k' = if k' = k then none else kvGet l k' := by
  induction l with
  | nil =>
    simp only [kvErase, kvGet]
    split <;> rfl
  | cons p rest ih =>
    by_cases hpk : p.1 = k
    · rw [kvErase, if_pos hpk, ih]
      by_cases hk : k' = k
      · simp [hk]
      · have hpk' : ¬ p.1 = k' := by
          rw [hpk]
          exact fun hh => hk hh.symm
        simp [kvGet, hpk', hk]
    · rw [kvErase, if_neg hpk]
      by_cases hpk' : p.1 = k'
      · have hk : ¬ k' = k := fun hh => hpk (hpk'.trans hh)
        simp [kvGet, hpk', hk]
      · simp [kvGet, hpk', ih]

theorem kvGet_kvSet_ne {V : Type} (l : List (String × V)) (k k' : String) (v : V)
    (h : k' ≠ k) : kvGet (kvSet l k v) k' = kvGet l k' := by
  have hk : ¬ k = k' := fun hh => h hh.symm
  rw [kvSet, kvGet, if_neg hk, kvGet_kvErase, if_neg h]

theorem kvGet_eq_none_iff {V : Type} (l : List (String × V)) (k : String) :
    kvGet l k = none ↔ ∀ p ∈ l, p.1 ≠ k := by
  induction l with
  | nil => simp [kvGet]
  | cons p rest ih =>
    by_cases hpk : p.1 = k <;> simp_all [kvGet]

theorem kvGet_isSome_iff {V : Type} (l : List (String × V)) (k : String) :
    (kvGet l k).isSome = true ↔ ∃ v, (k, v) ∈ l := by
  induction l with
  | nil => simp [kvGet]
  | cons p rest ih =>
    by_cases hpk : p.1 = k
    · subst hpk
      simp [kvGet]
      exact ⟨p.2, Or.inl rfl⟩
    · simp only [kvGet, hpk, if_false, ih, List.mem_cons]
      constructor
      · rintro ⟨v, hv⟩
        exact ⟨v, Or.inr hv⟩
      · rintro ⟨v, hv | hv⟩
        · exact absurd (congrArg Prod.fst hv.symm) hpk
        · exact ⟨v, hv⟩

theorem mem_keys_of_kvGet_isSome {V : Type} {l : List (String × V)} {k : String}
    (h : (kvGet l k).isSome = true) : k ∈ l.map (fun p => p.1) := by
  rcases (kvGet_isSome_iff l k).mp h with ⟨v, hv⟩
  exact List.mem_map.mpr ⟨(k, v), hv, rfl⟩

theorem kvGet_eq_none_of_not_mem_keys {V : Type} {l : List (String × V)} {k : String}
    (h : k ∉ l.map (fun p => p.1)) : kvGet l k = none := by
  cases hg : kvGet l k with
  | none => rfl
  | some v =>
    have : (kvGet l k).isSome = true := by simp [hg]
    exact absurd (mem_keys_of_kvGet_isSome this) h

theorem mem_scanPfx {V : Type} (l : List (String × V)) (p : String) (kv : String × V) :
    kv ∈ scanPfx l p ↔ kv ∈ l ∧ hasPfx p kv.1 = true := by
  simp [scanPfx, List.mem_filter]

theorem kvGet_mem {V : Type} {l : List (String × V)} {k : String} {v : V}
    (h : kvGet l k = some v) : (k, v) ∈ l := by
  induction l with
  | nil => simp [kvGet] at h
  | cons p rest ih =>
    obtain ⟨a, b⟩ := p
    by_cases hak : a = k
    · rw [kvGet, if_pos hak] at h
      rw [Option.some.injEq] at h
      subst hak
      subst h
      exact List.mem_cons_self _ _
    · rw [kvGet, if_neg hak] at h
      exact List.mem_cons_of_mem _ (ih h)

theorem scanPfx_eq_nil_kvGet {V : Type} {l : List (String × V)} {p : String}
    (h : scanPfx l p = []) (k : String) (hk : hasPfx p k = true) :
    kvGet l k = none := by
  cases hg : kvGet l k with
  | none => rfl
  | some v =>
    have hm : (k, v) ∈ scanPfx l p := (mem_scanPfx l p (k, v)).mpr ⟨kvGet_mem hg, hk⟩
    rw [h] at hm
    simp at hm

/-! ## Lemmas about key prefixes and the slash split -/

theorem hasPfx_append (p r : String) : hasPfx p (p ++ r) = true := by
  rw [hasPfx, String.data_append]
  exact List.isPrefixOf_iff_prefix.mpr (List.prefix_append p.data r.data)

theorem splitChar_no_sep (sep : Char) (l : List Char) (h : ∀ c ∈ l, c ≠ sep) :
    splitChar sep l = [l] := by
  induction l with
  | nil => rfl
  | cons c rest ih =>
    have hc : c ≠ sep := h c (by simp)
    have hrest : splitChar sep rest = [rest] := ih (fun x hx => h x (by simp [hx]))
    simp [splitChar, hc, hrest]

theorem splitChar_append (sep : Char) (l1 l2 : List Char) (h : ∀ c ∈ l1, c ≠ sep) :
    splitChar sep (l1 ++ (sep :: l2)) = l1 :: splitChar sep l2 := by
  induction l1 with
  | nil => simp [splitChar]
  | cons c rest ih =>
    have hc : c ≠ sep := h c (by simp)
    have hrest := ih (fun x hx => h x (by simp [hx]))
    simp only [List.cons_append, splitChar, if_neg hc, List.append_eq]
    rw [hrest]

/-- On a compound key `c ++ "/" ++ d` with slash-free components, the
doc-id extraction of get_vectors_in_collection returns exactly `d`. -/
theorem extractDocId_compound (c d : String)
    (hc : ∀ ch ∈ c.data, ch ≠ '/') (hd : ∀ ch ∈ d.data, ch ≠ '/') :
    extractDocId (c ++ "/" ++ d) = d := by
  have hdata : (c ++ "/" ++ d).data = c.data ++ ('/' :: d.data) := by
    rw [String.data_append, String.data_append, List.append_assoc]
    rfl
  have hsplit : splitChar '/' (c ++ "/" ++ d).data = c.data :: [d.data] := by
    rw [hdata, splitChar_append '/' c.data d.data hc, splitChar_no_sep '/' d.data hd]
  rw [extractDocId, hsplit]
  rfl

/-! ## Round trip of the little-endian f32 codec -/

theorem decodeLeF32s_toLeBytes_append (f : F32) (bs : List ByteV) :
    decodeLeF32s (F32.toLeBytes f ++ bs) = f :: decodeLeF32s bs := by
  have hlt := f.isLt
  simp only [F32.toLeBytes, List.cons_append, List.nil_append, decodeLeF32s]
  congr 1
  apply Fin.ext
  show (f.val % 256) + 256 * (f.val / 256 % 256) + 65536 * (f.val / 256 / 256 % 256)
      + 16777216 * (f.val / 256 / 256 / 256 % 256) = f.val
  omega

theorem decode_encode_vector (v : List F32) :
    decodeLeF32s (encodeVector v) = v := by
  induction v with
  | nil => rfl
  | cons f rest ih =>
    have henc : encodeVector (f :: rest) = F32.toLeBytes f ++ encodeVector rest := by
      simp [encodeVector]
    rw [henc, decodeLeF32s_toLeBytes_append, ih]

theorem kvErase_sublist {V : Type} (l : List (String × V)) (k : String) :
    (kvErase l k).Sublist l := by
  induction l with
  | nil => simp [kvErase]
  | cons p rest ih =>
    by_cases hpk : p.1 = k
    · rw [kvErase, if_pos hpk]
      exact ih.cons p
    · rw [kvErase, if_neg hpk]
      exact ih.cons₂ p

theorem kvErase_of_kvGet_none {V : Type} {l : List (String × V)} {k : String}
    (h : kvGet l k = none) : kvErase l k = l := by
  induction l with
  | nil => rfl
  | cons p rest ih =>
    by_cases hpk : p.1 = k
    · rw [kvGet, if_pos hpk] at h
      simp at h
    · rw [kvGet, if_neg hpk] at h
      rw [kvErase, if_neg hpk, ih h]

theorem sumSizes_kvErase {l : List (String × CacheEntry)} {k : String} {e : CacheEntry}
    (hn : (l.map (fun p => p.1)).Nodup) (he : kvGet l k = some e) :
    e.size_bytes + sumSizes (kvErase l k) = sumSizes l := by
  induction l with
  | nil => simp [kvGet] at he
  | cons p rest ih =>
    rw [List.map_cons, List.nodup_cons] at hn
    by_cases hpk : p.1 = k
    · rw [kvGet, if_pos hpk] at he
      rw [Option.some.injEq] at he
      subst he
      have hnone : kvGet rest k = none := by
        apply kvGet_eq_none_of_not_mem_keys
        rw [← hpk]
        exact hn.1
      rw [kvErase, if_pos hpk, kvErase_of_kvGet_none hnone]
      simp [sumSizes]
    · rw [kvGet, if_neg hpk] at he
      rw [kvErase, if_neg hpk]
      have := ih hn.2 he
      simp only [sumSizes, List.map_cons, List.sum_cons] at *
      omega

theorem size_le_sumSizes {l : List (String × CacheEntry)} {k : String} {e : CacheEntry}
    (hn : (l.map (fun p => p.1)).Nodup) (he : kvGet l k = some e) :
    e.size_bytes ≤ sumSizes l := by
  have := sumSizes_kvErase hn he
  omega

theorem keys_kvErase_nodup {V : Type} {l : List (String × V)} (k : String)
    (hn : (l.map (fun p => p.1)).Nodup) :
    ((kvErase l k).map (fun p => p.1)).Nodup :=
  ((kvErase_sublist l k).map (fun p => p.1)).nodup hn

theorem popBack_some {l rest : List String} {x : String}
    (h : popBack l = some (rest, x)) : l = rest ++ [x] := by
  rw [popBack] at h
  cases hr : l.reverse with
  | nil => rw [hr] at h; simp at h
  | cons y ys =>
    rw [hr] at h
    rw [Option.some.injEq, Prod.mk.injEq] at h
    obtain ⟨h1, h2⟩ := h
    subst h1 h2
    calc l = l.reverse.reverse := (List.reverse_reverse l).symm
    _ = (y :: ys).reverse := by rw [hr]
    _ = ys.reverse ++ [y] := by simp

theorem popBack_none {l : List String} (h : popBack l = none) : l = [] := by
  rw [popBack] at h
  cases hr : l.reverse with
  | nil => exact List.reverse_eq_nil_iff.mp hr
  | cons y ys => rw [hr] at h; simp at h

theorem entries_nil_of_no_get {l : List (String × CacheEntry)}
    (h : ∀ k, kvGet l k = none) : l = [] := by
  cases l with
  | nil => rfl
  | cons p rest =>
    have := h p.1
    rw [kvGet, if_pos rfl] at this
    simp at this

/-- Combined facts about the eviction loop: it preserves the invariant and
the capacity, only drops recency keys, and, given enough fuel, leaves room
for the incoming entry. -/
theorem evictFuel_facts (needed : Nat) :
    ∀ (n : Nat) (c : DocCache), CacheInv c →
      CacheInv (evictFuel n c needed) ∧
      (evictFuel n c needed).capacity_bytes = c.capacity_bytes ∧
      (∀ k, k ∈ (evictFuel n c needed).lru_order → k ∈ c.lru_order) ∧
      (needed ≤ c.capacity_bytes → c.lru_order.length ≤ n →
        (evictFuel n c needed).size_bytes + needed ≤ c.capacity_bytes) := by
  intro n
  induction n with
  | zero =>
    intro c hc
    refine ⟨hc, rfl, fun k hk => hk, fun hneed hlen => ?_⟩
    have hnil : c.lru_order = [] := List.eq_nil_of_length_eq_zero (Nat.le_zero.mp hlen)
    have hent : c.entries = [] := by
      apply entries_nil_of_no_get
      intro k
      have hk : k ∉ c.lru_order := by rw [hnil]; simp
      have := (hc.mem_iff k).not.mp hk
      exact Option.not_isSome_iff_eq_none.mp this
    have hsz : c.size_bytes = 0 := by
      have := hc.sum_eq
      rw [hent] at this
      simp [sumSizes] at this
      omega
    rw [evictFuel, hsz]
    omega
  | succ n ih =>
    intro c hc
    by_cases hcond : c.size_bytes + needed > c.capacity_bytes
    · cases hpop : popBack c.lru_order with
      | none =>
        have hnil : c.lru_order = [] := popBack_none hpop
        have hent : c.entries = [] := by
          apply entries_nil_of_no_get
          intro k
          have hk : k ∉ c.lru_order := by rw [hnil]; simp
          exact Option.not_isSome_iff_eq_none.mp ((hc.mem_iff k).not.mp hk)
        have hsz : c.size_bytes = 0 := by
          have := hc.sum_eq
          rw [hent] at this
          simp [sumSizes] at this
          omega
        rw [evictFuel, if_pos hcond, hpop]
        exact ⟨hc, rfl, fun k hk => hk, fun hneed _ => by omega⟩
      | some p =>
        obtain ⟨rest, x⟩ := p
        have hl : c.lru_order = rest ++ [x] := popBack_some hpop
        have hx_mem : x ∈ c.lru_order := by rw [hl]; simp
        have hx_some : (kvGet c.entries x).isSome = true := (hc.mem_iff x).mp hx_mem
        cases hev : kvGet c.entries x with
        | none => rw [hev] at hx_some; simp at hx_some
        | some ev =>
          have hnodup_app := hc.lru_nodup
          rw [hl, List.nodup_append] at hnodup_app
          obtain ⟨hrest_nodup, _, hdisj⟩ := hnodup_app
          have hx_not_rest : x ∉ rest := fun hmem => hdisj hmem (by simp)
          set c' : DocCache :=
            { c with
              lru_order := rest
              entries := kvErase c.entries x
              size_bytes := c.size_bytes - ev.size_bytes } with hc'
          have hc'_inv : CacheInv c' := by
            constructor
            · exact keys_kvErase_nodup x hc.keys_nodup
            · exact hrest_nodup
            · intro k
              rw [hc']
              show k ∈ rest ↔ (kvGet (kvErase c.entries x) k).isSome = true
              rw [kvGet_kvErase]
              by_cases hkx : k = x
              · subst hkx
                simp [hx_not_rest]
              · rw [if_neg hkx, ← hc.mem_iff k, hl, List.mem_append]
                simp [hkx]
            · show sumSizes (kvErase c.entries x) = c.size_bytes - ev.size_bytes
              have := sumSizes_kvErase hc.keys_nodup hev
              have h2 := hc.sum_eq
              omega
            · show c.size_bytes - ev.size_bytes ≤ c.capacity_bytes
              have := hc.le_cap
              omega
          have hstep : evictFuel (n + 1) c needed = evictFuel n c' needed := by
            rw [evictFuel, if_pos hcond, hpop]
            simp only [hev]
          obtain ⟨ih1, ih2, ih3, ih4⟩ := ih c' hc'_inv
          have hcap2 : c'.capacity_bytes = c.capacity_bytes := rfl
          have hlru2 : c'.lru_order = rest := rfl
          refine ⟨by rw [hstep]; exact ih1,
                  by rw [hstep]; exact ih2.trans hcap2, ?_, ?_⟩
          · intro k hk
            rw [hstep] at hk
            have hkr : k ∈ rest := by
              have := ih3 k hk
              rw [hlru2] at this
              exact this
            rw [hl, List.mem_append]
            exact Or.inl hkr
          · intro hneed hlen
            rw [hstep]
            have hlen' : c'.lru_order.length ≤ n := by
              rw [hlru2]
              have : c.lru_order.length = rest.length + 1 := by rw [hl]; simp
              omega
            have hneed' : needed ≤ c'.capacity_bytes := by rw [hcap2]; exact hneed
            have hres := ih4 hneed' hlen'
            omega
    · rw [evictFuel, if_neg hcond]
      exact ⟨hc, rfl, fun k hk => hk, fun _ _ => by omega⟩

theorem mem_filter_ne (l : List String) (id k : String) :
    k ∈ l.filter (fun x => x != id) ↔ k ∈ l ∧ k ≠ id := by
  simp [List.mem_filter]

theorem CacheInv.newInv (capacity_bytes : Nat) : CacheInv (DocCache.new capacity_bytes) := by
  constructor <;> simp [DocCache.new, kvGet, sumSizes]

theorem getOp_inv {c : DocCache} (id : String) (hc : CacheInv c) :
    CacheInv (c.getOp id).2 := by
  rw [DocCache.getOp]
  cases hev : kvGet c.entries id with
  | none => exact hc
  | some e =>
    have hid_mem : id ∈ c.lru_order := (hc.mem_iff id).mpr (by simp [hev])
    constructor
    · exact hc.keys_nodup
    · show (id :: c.lru_order.filter (fun k => k != id)).Nodup
      rw [List.nodup_cons]
      constructor
      · intro hmem
        exact ((mem_filter_ne _ _ _).mp hmem).2 rfl
      · exact hc.lru_nodup.filter _
    · intro k
      show k ∈ id :: c.lru_order.filter (fun x => x != id) ↔ _
      rw [List.mem_cons, mem_filter_ne]
      by_cases hk : k = id
      · subst hk
        simp [hev]
      · simp only [hk, false_or]
        rw [← hc.mem_iff k]
        simp [hk]
    · exact hc.sum_eq
    · exact hc.le_cap

theorem removeOp_inv {c : DocCache} (id : String) (hc : CacheInv c) :
    CacheInv (c.removeOp id) := by
  rw [DocCache.removeOp]
  cases hev : kvGet c.entries id with
  | none => exact hc
  | some e =>
    constructor
    · exact keys_kvErase_nodup id hc.keys_nodup
    · exact hc.lru_nodup.filter _
    · intro k
      show k ∈ c.lru_order.filter (fun x => x != id) ↔
        (kvGet (kvErase c.entries id) k).isSome = true
      rw [mem_filter_ne, kvGet_kvErase]
      by_cases hk : k = id
      · subst hk; simp
      · rw [if_neg hk, ← hc.mem_iff k]
        simp [hk]
    · show sumSizes (kvErase c.entries id) = c.size_bytes - e.size_bytes
      have := sumSizes_kvErase hc.keys_nodup hev
      have h2 := hc.sum_eq
      omega
    · show c.size_bytes - e.size_bytes ≤ c.capacity_bytes
      have := hc.le_cap
      omega

theorem removeOp_kvGet_self (c : DocCache) (id : String) :
    kvGet (c.removeOp id).entries id = none := by
  rw [DocCache.removeOp]
  cases hev : kvGet c.entries id with
  | none => exact hev
  | some e =>
    show kvGet (kvErase c.entries id) id = none
    rw [kvGet_kvErase, if_pos rfl]

theorem removeOp_not_mem_lru {c : DocCache} (id : String) (hc : CacheInv c) :
    id ∉ (c.removeOp id).lru_order := by
  rw [DocCache.removeOp]
  cases hev : kvGet c.entries id with
  | none =>
    show id ∉ c.lru_order
    intro hmem
    have := (hc.mem_iff id).mp hmem
    rw [hev] at this
    simp at this
  | some e =>
    show id ∉ c.lru_order.filter (fun x => x != id)
    intro hmem
    exact ((mem_filter_ne _ _ _).mp hmem).2 rfl

theorem removeOp_capacity (c : DocCache) (id : String) :
    (c.removeOp id).capacity_bytes = c.capacity_bytes := by
  rw [DocCache.removeOp]
  cases kvGet c.entries id <;> rfl

theorem insertOp_inv {c : DocCache} (id : String) (doc : Document) (hc : CacheInv c) :
    CacheInv (c.insertOp id doc) := by
  rw [DocCache.insertOp]
  by_cases hbig : estimate_doc_size_bytes doc > c.capacity_bytes
  · rw [if_pos hbig]
    exact hc
  · rw [if_neg hbig]
    have hfit : estimate_doc_size_bytes doc ≤ c.capacity_bytes := Nat.not_lt.mp hbig
    have hc1eq : (match kvGet c.entries id with
      | some existing =>
        { c with
          entries := kvErase c.entries id
          size_bytes := c.size_bytes - existing.size_bytes
          lru_order := c.lru_order.filter (fun k => k != id) }
      | none => c) = c.removeOp id := by
      rw [DocCache.removeOp]
    rw [hc1eq]
    set c1 := c.removeOp id with hc1
    set size := estimate_doc_size_bytes doc with hsize
    have hc1_inv : CacheInv c1 := removeOp_inv id hc
    have hc1_cap : c1.capacity_bytes = c.capacity_bytes := removeOp_capacity c id
    have hc1_none : kvGet c1.entries id = none := removeOp_kvGet_self c id
    have hc1_lru : id ∉ c1.lru_order := removeOp_not_mem_lru id hc
    obtain ⟨hinv2, hcap2, hmem2, hpost2⟩ :=
      evictFuel_facts size c1.lru_order.length c1 hc1_inv
    set c2 := evictFuel c1.lru_order.length c1 size with hc2
    have hc2_lru : id ∉ c2.lru_order := fun hmem => hc1_lru (hmem2 id hmem)
    have hc2_none : kvGet c2.entries id = none :=
      Option.not_isSome_iff_eq_none.mp ((hinv2.mem_iff id).not.mp hc2_lru)
    have hc2_keys : id ∉ c2.entries.map (fun p => p.1) := by
      intro hmem
      rcases List.mem_map.mp hmem with ⟨p, hp, hp1⟩
      have : (kvGet c2.entries id).isSome = true := by
        apply (kvGet_isSome_iff _ _).mpr
        exact ⟨p.2, by rw [← hp1]; exact hp⟩
      rw [hc2_none] at this
      simp at this
    have hpost : c2.size_bytes + size ≤ c1.capacity_bytes :=
      hpost2 (by rw [hc1_cap]; exact hfit) (le_refl _)
    constructor
    · show ((id, ⟨doc, size⟩) :: c2.entries).map (fun p => p.1) |>.Nodup
      rw [List.map_cons, List.nodup_cons]
      exact ⟨hc2_keys, hinv2.keys_nodup⟩
    · show (id :: c2.lru_order).Nodup
      rw [List.nodup_cons]
      exact ⟨hc2_lru, hinv2.lru_nodup⟩
    · intro k
      show k ∈ id :: c2.lru_order ↔
        (kvGet ((id, ⟨doc, size⟩) :: c2.entries) k).isSome = true
      rw [List.mem_cons, kvGet]
      by_cases hk : k = id
      · subst hk
        simp
      · have : ¬ id = k := fun hh => hk hh.symm
        rw [if_neg this]
        simp only [hk, false_or]
        exact hinv2.mem_iff k
    · show sumSizes ((id, ⟨doc, size⟩) :: c2.entries) = c2.size_bytes + size
      rw [sumSizes, List.map_cons, List.sum_cons, ← sumSizes, hinv2.sum_eq]
      show size + c2.size_bytes = c2.size_bytes + size
      omega
    · show c2.size_bytes + size ≤ c2.capacity_bytes
      rw [hcap2]
      exact hpost

/-- Every reachable cache state satisfies the inductive invariant. -/
theorem cacheInv_of_reachable {c : DocCache} (h : CacheReachable c) : CacheInv c := by
  induction h with
  | new capacity_bytes => exact CacheInv.newInv capacity_bytes
  | getStep c id _ ih => exact getOp_inv id ih
  | insertStep c id doc _ ih => exact insertOp_inv id doc ih
  | removeStep c id _ ih => exact removeOp_inv id ih

/-! ## Claim C2 -/

/-- Claim C2: for every cache state reachable from the empty cache by any
sequence of get, insert and remove operations, the sum of the stored
entry sizes equals the size counter, the counter is at most the
capacity, and every key of the entry map occurs exactly once in the
recency sequence. -/
theorem C2_cache_invariants (c : DocCache) (h : CacheReachable c) :
    sumSizes c.entries = c.size_bytes ∧
    c.size_bytes ≤ c.capacity_bytes ∧
    ∀ k, (kvGet c.entries k).isSome = true → c.lru_order.count k = 1 := by
  have hc := cacheInv_of_reachable h
  refine ⟨hc.sum_eq, hc.le_cap, fun k hk => ?_⟩
  exact List.count_eq_one_of_mem hc.lru_nodup ((hc.mem_iff k).mpr hk)

/-- Witness for C2 at a concrete reachable state: the fresh capacity-10
cache after inserting the small sample document. -/
theorem C2_cache_invariants_witness :
    sumSizes ((DocCache.new 10).insertOp "x" docXSmall).entries =
      ((DocCache.new 10).insertOp "x" docXSmall).size_bytes ∧
    ((DocCache.new 10).insertOp "x" docXSmall).size_bytes ≤
      ((DocCache.new 10).insertOp "x" docXSmall).capacity_bytes ∧
    ((DocCache.new 10).insertOp "x" docXSmall).lru_order.count "x" = 1 := by
  have r : CacheReachable ((DocCache.new 10).insertOp "x" docXSmall) :=
    CacheReachable.insertStep (DocCache.new 10) "x" docXSmall (CacheReachable.new 10)
  obtain ⟨h1, h2, h3⟩ := C2_cache_invariants ((DocCache.new 10).insertOp "x" docXSmall) r
  exact ⟨h1, h2, h3 "x" (by decide)⟩

/-- When the document alone exceeds the capacity, DocCache::insert is a
no-op. -/
theorem insertOp_overflow {c : DocCache} {id : String} {doc : Document}
    (h : estimate_doc_size_bytes doc > c.capacity_bytes) :
    c.insertOp id doc = c := by
  simp only [DocCache.insertOp]
  rw [if_pos h]

/-- When the document fits the capacity, DocCache::insert leaves its entry
at the front of the map. -/
theorem insertOp_kvGet_self (c : DocCache) (id : String) (doc : Document)
    (h : estimate_doc_size_bytes doc ≤ c.capacity_bytes) :
    kvGet (c.insertOp id doc).entries id =
      some ⟨doc, estimate_doc_size_bytes doc⟩ := by
  simp only [DocCache.insertOp]
  rw [if_neg (Nat.not_lt.mpr h)]
  simp [kvGet]

/-! ## Claim C1 -/

/-- Claim C1 as stated is false on the code: with a 10-byte cache, insert
docXSmall under id "x", then insert docXBig under the same id. The big
document exceeds the cache capacity, so DocCache::insert returns early and
leaves the stale small document cached; get_doc then serves the stale
cached document rather than the inserted one. -/
theorem C1_counterexample :
    kvGet (((Storage.openFresh 10).insert_doc docXSmall "c").insert_doc
        docXBig "c").doc_tree "c/x" = some docXBig ∧
    (((Storage.openFresh 10).insert_doc docXSmall "c").insert_doc
        docXBig "c").get_doc_fst "c" "x" = .ok docXSmall ∧
    docXSmall ≠ docXBig := by
  exact ⟨rfl, rfl, by decide⟩

/-- Claim C1, amended: after insert_doc(d, c) succeeds, get_doc(c, d.id)
returns a Document equal to d, provided the document fits the cache
capacity or no stale entry for the compound key is cached. -/
theorem C1_insert_doc_get_doc (s : Storage) (d : Document) (col : String)
    (h : estimate_doc_size_bytes d ≤ s.doc_cache.capacity_bytes ∨
         kvGet s.doc_cache.entries (col ++ "/" ++ d.id) = none) :
    (s.insert_doc d col).get_doc_fst col d.id = .ok d := by
  set key := col ++ "/" ++ d.id with hkey
  have hcache : (s.insert_doc d col).doc_cache = s.doc_cache.insertOp key d := rfl
  have hdoc : (s.insert_doc d col).doc_tree = kvSet s.doc_tree key d := rfl
  by_cases hfit : estimate_doc_size_bytes d ≤ s.doc_cache.capacity_bytes
  · have hself : kvGet (s.insert_doc d col).doc_cache.entries key =
        some ⟨d, estimate_doc_size_bytes d⟩ := by
      rw [hcache]
      exact insertOp_kvGet_self s.doc_cache key d hfit
    rw [Storage.get_doc_fst, Storage.get_doc, Storage.get_doc_with_cache_status,
      DocCache.getOp, hself]
    rfl
  · have hmiss : kvGet s.doc_cache.entries key = none := by
      rcases h with hf | hm
      · exact absurd hf hfit
      · exact hm
    have hnocache : (s.insert_doc d col).doc_cache = s.doc_cache := by
      rw [hcache]
      exact insertOp_overflow (Nat.lt_of_not_le hfit)
    rw [Storage.get_doc_fst, Storage.get_doc, Storage.get_doc_with_cache_status,
      DocCache.getOp, hnocache, hmiss, hdoc, kvGet_kvSet_self]
    rfl

/-- Witness for the amended C1: a fresh 100-byte store, the small
document, collection "c". -/
theorem C1_insert_doc_get_doc_witness :
    ((Storage.openFresh 100).insert_doc docXSmall "c").get_doc_fst "c" "x" =
      .ok docXSmall :=
  C1_insert_doc_get_doc (Storage.openFresh 100) docXSmall "c" (Or.inl (by decide))

/-! ## Claim C3 -/

/-- Claim C3 as stated is false on the code: insert_doc itself populates
the cache, so the first get_doc_with_cache_status call after an insert
already reports from_cache = true although the document is present in the
docs store. -/
theorem C3_counterexample :
    kvGet ((Storage.openFresh 100).insert_doc docXSmall "c").doc_tree "c/x" =
      some docXSmall ∧
    ((Storage.openFresh 100).insert_doc docXSmall "c").wcs_fst "c/x" =
      .ok (docXSmall, true) := by
  exact ⟨rfl, rfl⟩

/-- Claim C3, amended: when the compound key is not cached and the stored
document fits the cache capacity, the first get_doc_with_cache_status call
returns the document with from_cache = false and the second call on the
resulting state returns it with from_cache = true. -/
theorem C3_cold_cache_hit_flags (s : Storage) (key : String) (d : Document)
    (hmiss : kvGet s.doc_cache.entries key = none)
    (hdoc : kvGet s.doc_tree key = some d)
    (hfit : estimate_doc_size_bytes d ≤ s.doc_cache.capacity_bytes) :
    s.wcs_fst key = .ok (d, false) ∧
    (s.wcs_next key).wcs_fst key = .ok (d, true) := by
  have h1 : s.get_doc_with_cache_status key =
      .ok ((d, false), { s with doc_cache := s.doc_cache.insertOp key d }) := by
    rw [Storage.get_doc_with_cache_status, DocCache.getOp, hmiss, hdoc]
  have hself : kvGet (s.doc_cache.insertOp key d).entries key =
      some ⟨d, estimate_doc_size_bytes d⟩ :=
    insertOp_kvGet_self s.doc_cache key d hfit
  constructor
  · rw [Storage.wcs_fst, h1]
    rfl
  · rw [Storage.wcs_next, h1]
    rw [Storage.wcs_fst, Storage.get_doc_with_cache_status, DocCache.getOp]
    rw [show kvGet ({ s with doc_cache := s.doc_cache.insertOp key d } : Storage).doc_cache.entries key =
        some ⟨d, estimate_doc_size_bytes d⟩ from hself]
    rfl

/-- Witness for the amended C3 at the cold-cache state. -/
theorem C3_cold_cache_hit_flags_witness :
    storageDocOnly.wcs_fst "c/x" = .ok (docXSmall, false) ∧
    (storageDocOnly.wcs_next "c/x").wcs_fst "c/x" = .ok (docXSmall, true) :=
  C3_cold_cache_hit_flags storageDocOnly "c/x" docXSmall rfl rfl (by decide)

/-! ## Claim C4 -/

theorem mem_scanPfx_keys {V : Type} (l : List (String × V)) (p : String) (k : String) :
    k ∈ (scanPfx l p).map (fun kv => kv.1) ↔
      ((kvGet l k).isSome = true ∧ hasPfx p k = true) := by
  constructor
  · intro h
    rcases List.mem_map.mp h with ⟨kv, hkv, hk⟩
    rcases (mem_scanPfx l p kv).mp hkv with ⟨hmem, hpfx⟩
    subst hk
    exact ⟨(kvGet_isSome_iff l kv.1).mpr ⟨kv.2, hmem⟩, hpfx⟩
  · rintro ⟨hsome, hpfx⟩
    rcases (kvGet_isSome_iff l k).mp hsome with ⟨v, hmem⟩
    exact List.mem_map.mpr ⟨(k, v), (mem_scanPfx l p (k, v)).mpr ⟨hmem, hpfx⟩, rfl⟩

/-- Effect of the delete_collection loop on the stores: keys in the list
are erased from the three document trees, other keys are untouched, and
the catalog trees are untouched. -/
theorem dcFold_facts (ks : List String) (s : Storage) :
    (∀ k, kvGet (ks.foldl dcStep s).doc_tree k =
      if k ∈ ks then none else kvGet s.doc_tree k) ∧
    (∀ k, kvGet (ks.foldl dcStep s).metadata_tree k =
      if k ∈ ks then none else kvGet s.metadata_tree k) ∧
    (∀ k, kvGet (ks.foldl dcStep s).vector_tree k =
      if k ∈ ks then none else kvGet s.vector_tree k) ∧
    (ks.foldl dcStep s).collection_tree = s.collection_tree ∧
    (ks.foldl dcStep s).env_tree = s.env_tree := by
  induction ks generalizing s with
  | nil => simp
  | cons k0 rest ih =>
    obtain ⟨ihd, ihm, ihv, ihc, ihe⟩ := ih (dcStep s k0)
    have hstep : (k0 :: rest).foldl dcStep s = rest.foldl dcStep (dcStep s k0) := rfl
    rw [hstep]
    refine ⟨fun k => ?_, fun k => ?_, fun k => ?_, ?_, ?_⟩
    · rw [ihd k]
      show _ = if k ∈ k0 :: rest then none else kvGet s.doc_tree k
      have hstep2 : (dcStep s k0).doc_tree = kvErase s.doc_tree k0 := rfl
      by_cases hkr : k ∈ rest
      · simp [hkr]
      · rw [if_neg hkr, hstep2, kvGet_kvErase]
        by_cases hk0 : k = k0
        · simp [hk0]
        · simp [hk0, hkr]
    · rw [ihm k]
      show _ = if k ∈ k0 :: rest then none else kvGet s.metadata_tree k
      have hstep2 : (dcStep s k0).metadata_tree = kvErase s.metadata_tree k0 := rfl
      by_cases hkr : k ∈ rest
      · simp [hkr]
      · rw [if_neg hkr, hstep2, kvGet_kvErase]
        by_cases hk0 : k = k0
        · simp [hk0]
        · simp [hk0, hkr]
    · rw [ihv k]
      show _ = if k ∈ k0 :: rest then none else kvGet s.vector_tree k
      have hstep2 : (dcStep s k0).vector_tree = kvErase s.vector_tree k0 := rfl
      by_cases hkr : k ∈ rest
      · simp [hkr]
      · rw [if_neg hkr, hstep2, kvGet_kvErase]
        by_cases hk0 : k = k0
        · simp [hk0]
        · simp [hk0, hkr]
    · exact ihc.trans rfl
    · exact ihe.trans rfl

theorem kvGet_cons_nil_isSome {V : Type} {a k : String} {v : V}
    (h : (kvGet [(a, v)] k).isSome = true) : a = k := by
  by_cases hak : a = k
  · exact hak
  · rw [kvGet, if_neg hak] at h
    simp [kvGet] at h

/-- Claim C4 as stated is false on the code: delete_collection scans only
the `docs` tree, so a vectors entry written under a collection-prefixed
key without a docs twin (reachable through Storage::insert, used by the
gRPC insert endpoint) survives the deletion. -/
theorem C4_counterexample :
    hasPfx "k/" "k/stray" = true ∧
    kvGet (((Storage.openFresh 100).insert "k/stray" ("stray", "t")
        []).delete_collection "e1" "k").vector_tree "k/stray" =
      some (encodeVector []) := by
  exact ⟨rfl, rfl⟩

/-- Claim C4, amended: after delete_collection(E, C), no key prefixed by
C ++ "/" remains in the docs, metadata or vectors trees, the collection
entity is removed and the stored environment no longer lists C — provided
every prefixed metadata or vectors key also appears in docs (no stray
side-store entries) and the environment stored under E carries E as its id
field (update_environment writes back under the id field). -/
theorem C4_delete_collection_purges (s : Storage) (env_id col_id : String)
    (hmeta : ∀ k, hasPfx (col_id ++ "/") k = true →
      (kvGet s.metadata_tree k).isSome = true → (kvGet s.doc_tree k).isSome = true)
    (hvec : ∀ k, hasPfx (col_id ++ "/") k = true →
      (kvGet s.vector_tree k).isSome = true → (kvGet s.doc_tree k).isSome = true)
    (henv : ∀ e, kvGet s.env_tree env_id = some e → e.id = env_id) :
    (∀ k, hasPfx (col_id ++ "/") k = true →
      kvGet (s.delete_collection env_id col_id).doc_tree k = none ∧
      kvGet (s.delete_collection env_id col_id).metadata_tree k = none ∧
      kvGet (s.delete_collection env_id col_id).vector_tree k = none) ∧
    kvGet (s.delete_collection env_id col_id).collection_tree col_id = none ∧
    (∀ e, kvGet (s.delete_collection env_id col_id).env_tree env_id = some e →
      col_id ∉ e.collections) := by
  set keys := (scanPfx s.doc_tree (col_id ++ "/")).map (fun kv => kv.1) with hkeys
  obtain ⟨hd, hm, hv, hcoll, henvt⟩ := dcFold_facts keys s
  set s1 := keys.foldl dcStep s with hs1
  have hdc : s.delete_collection env_id col_id =
      (match kvGet s1.env_tree env_id with
       | some env =>
         { s1 with
           collection_tree := kvErase s1.collection_tree col_id
           env_tree := kvSet s1.env_tree env.id
             { env with collections := env.collections.filter (fun id => id != col_id) } }
       | none => { s1 with collection_tree := kvErase s1.collection_tree col_id }) := rfl
  have hdoc_res : (s.delete_collection env_id col_id).doc_tree = s1.doc_tree := by
    rw [hdc]
    cases kvGet s1.env_tree env_id <;> rfl
  have hmeta_res : (s.delete_collection env_id col_id).metadata_tree = s1.metadata_tree := by
    rw [hdc]
    cases kvGet s1.env_tree env_id <;> rfl
  have hvec_res : (s.delete_collection env_id col_id).vector_tree = s1.vector_tree := by
    rw [hdc]
    cases kvGet s1.env_tree env_id <;> rfl
  have hcoll_res : (s.delete_collection env_id col_id).collection_tree =
      kvErase s1.collection_tree col_id := by
    rw [hdc]
    cases kvGet s1.env_tree env_id <;> rfl
  refine ⟨fun k hk => ⟨?_, ?_, ?_⟩, ?_, ?_⟩
  · rw [hdoc_res, hd k]
    by_cases hkk : k ∈ keys
    · rw [if_pos hkk]
    · rw [if_neg hkk]
      have : ¬ ((kvGet s.doc_tree k).isSome = true ∧ hasPfx (col_id ++ "/") k = true) :=
        fun hc => hkk ((mem_scanPfx_keys s.doc_tree (col_id ++ "/") k).mpr hc)
      cases hg : kvGet s.doc_tree k with
      | none => rfl
      | some v => exact absurd ⟨by simp [hg], hk⟩ this
  · rw [hmeta_res, hm k]
    by_cases hkk : k ∈ keys
    · rw [if_pos hkk]
    · rw [if_neg hkk]
      cases hg : kvGet s.metadata_tree k with
      | none => rfl
      | some v =>
        have hds : (kvGet s.doc_tree k).isSome = true := hmeta k hk (by simp [hg])
        exact absurd ((mem_scanPfx_keys s.doc_tree (col_id ++ "/") k).mpr ⟨hds, hk⟩) hkk
  · rw [hvec_res, hv k]
    by_cases hkk : k ∈ keys
    · rw [if_pos hkk]
    · rw [if_neg hkk]
      cases hg : kvGet s.vector_tree k with
      | none => rfl
      | some v =>
        have hds : (kvGet s.doc_tree k).isSome = true := hvec k hk (by simp [hg])
        exact absurd ((mem_scanPfx_keys s.doc_tree (col_id ++ "/") k).mpr ⟨hds, hk⟩) hkk
  · rw [hcoll_res, kvGet_kvErase, if_pos rfl]
  · rw [hdc]
    cases hE : kvGet s1.env_tree env_id with
    | none =>
      intro e he
      have he2 : kvGet s1.env_tree env_id = some e := he
      rw [hE] at he2
      simp at he2
    | some env =>
      intro e he
      have henvid : env.id = env_id := by
        apply henv env
        rw [← henvt]
        exact hE
      have he2 : kvGet (kvSet s1.env_tree env.id
          { env with collections := env.collections.filter (fun id => id != col_id) })
          env_id = some e := he
      rw [henvid, kvGet_kvSet_self, Option.some.injEq] at he2
      rw [← he2]
      intro hmem
      simp [List.mem_filter] at hmem

/-- Witness for the amended C4 at the concrete state. -/
theorem C4_delete_collection_purges_witness :
    kvGet (storageC4.delete_collection "e1" "k").doc_tree "k/x" = none ∧
    kvGet (storageC4.delete_collection "e1" "k").metadata_tree "k/x" = none ∧
    kvGet (storageC4.delete_collection "e1" "k").vector_tree "k/x" = none ∧
    kvGet (storageC4.delete_collection "e1" "k").collection_tree "k" = none ∧
    "k" ∉ envEdel.collections := by
  have hmeta : ∀ k, hasPfx ("k" ++ "/") k = true →
      (kvGet storageC4.metadata_tree k).isSome = true →
      (kvGet storageC4.doc_tree k).isSome = true := by
    intro k _hp hs
    have hs2 : (kvGet [("k/x", ("x", ""))] k).isSome = true := hs
    have hk : "k/x" = k := kvGet_cons_nil_isSome hs2
    rw [← hk]
    decide
  have hvec : ∀ k, hasPfx ("k" ++ "/") k = true →
      (kvGet storageC4.vector_tree k).isSome = true →
      (kvGet storageC4.doc_tree k).isSome = true := by
    intro k _hp hs
    have hs2 : (kvGet [("k/x", ([] : List ByteV))] k).isSome = true := hs
    have hk : "k/x" = k := kvGet_cons_nil_isSome hs2
    rw [← hk]
    decide
  have henv : ∀ e, kvGet storageC4.env_tree "e1" = some e → e.id = "e1" := by
    intro e he
    have he2 : some envE = some e := he
    rw [Option.some.injEq] at he2
    rw [← he2]
    rfl
  obtain ⟨h1, h2, h3⟩ := C4_delete_collection_purges storageC4 "e1" "k" hmeta hvec henv
  obtain ⟨ha, hb, hc⟩ := h1 "k/x" (by decide)
  exact ⟨ha, hb, hc, h2, h3 envEdel rfl⟩

/-! ## Claim C5 -/

/-- Claim C5 as stated is false on the code: for a document whose id
contains a slash, get_vectors_in_collection splits the compound key on
every slash and takes only the second part, so the returned id is not the
compound key with the collection prefix stripped. -/
theorem C5_counterexample :
    kvGet ((Storage.openFresh 100).insert_doc docSlash "c").doc_tree "c/a/b" =
      some docSlash ∧
    (((Storage.openFresh 100).insert_doc docSlash "c").get_vectors_in_collection
        "c").map (fun p => p.1) = ["a"] ∧
    docSlash.id = "a/b" ∧
    "a" ≠ "a/b" := by
  exact ⟨rfl, rfl, rfl, by decide⟩

/-- Claim C5, amended: provided neither the collection id nor the doc id
contains a slash, after insert_doc the pair (doc id, stored vector) occurs
in get_vectors_in_collection, the vector decoded exactly as inserted. -/
theorem C5_get_vectors_contains (s : Storage) (d : Document) (col : String)
    (hcol : ∀ ch ∈ col.data, ch ≠ '/') (hid : ∀ ch ∈ d.id.data, ch ≠ '/') :
    (d.id, d.vector) ∈ (s.insert_doc d col).get_vectors_in_collection col := by
  have hvt : (s.insert_doc d col).vector_tree =
      (col ++ "/" ++ d.id, encodeVector d.vector) ::
        kvErase s.vector_tree (col ++ "/" ++ d.id) := rfl
  rw [Storage.get_vectors_in_collection]
  apply List.mem_map.mpr
  refine ⟨(col ++ "/" ++ d.id, encodeVector d.vector), ?_, ?_⟩
  · apply (mem_scanPfx _ _ _).mpr
    constructor
    · rw [hvt]
      exact List.mem_cons_self _ _
    · exact hasPfx_append (col ++ "/") d.id
  · show (extractDocId (col ++ "/" ++ d.id), decodeLeF32s (encodeVector d.vector)) =
      (d.id, d.vector)
    rw [extractDocId_compound col d.id hcol hid, decode_encode_vector]

/-- Witness for the amended C5: the small document in collection "c". -/
theorem C5_get_vectors_contains_witness :
    ("x", ([] : List F32)) ∈
      ((Storage.openFresh 100).insert_doc docXSmall "c").get_vectors_in_collection "c" :=
  C5_get_vectors_contains (Storage.openFresh 100) docXSmall "c"
    (by decide) (by decide)

/-! ## Claim C6 -/

/-- On an empty prefix scan the projector emits the single-row sentinel
batch. -/
theorem project_empty (s : Storage) (col : String)
    (h : scanPfx s.doc_tree (col ++ "/") = []) :
    s.project_collection_to_arrow col =
      { ids := [""], texts := [""], categories := [""], vector_strs := ["[]"] } := by
  rw [Storage.project_collection_to_arrow, h]
  rfl

/-- On a non-empty scan the projector returns the four columns mapped
over the scanned documents. -/
theorem project_nonempty (s : Storage) (col : String)
    (h : scanPfx s.doc_tree (col ++ "/") ≠ []) :
    s.project_collection_to_arrow col =
      { ids := (s.get_docs_in_collection col).map (fun d => d.id)
        texts := (s.get_docs_in_collection col).map (fun d => d.text)
        categories := (s.get_docs_in_collection col).map (fun d => d.category)
        vector_strs := (s.get_docs_in_collection col).map (fun d => jsonOfVector d.vector) } := by
  rw [Storage.project_collection_to_arrow]
  cases hscan : scanPfx s.doc_tree (col ++ "/") with
  | nil => exact absurd hscan h
  | cons kv rest =>
    rw [Storage.get_docs_in_collection, hscan]
    rfl

/-- Claim C6: a collection whose docs prefix scan is empty projects to the
single-row sentinel batch (empty strings, "[]" vector column); a
non-empty collection projects to one row per stored document with the
vector column the JSON stringification of the document vector. -/
theorem C6_projector (s : Storage) (col : String) :
    (s.get_docs_in_collection col = [] →
      s.project_collection_to_arrow col =
        { ids := [""], texts := [""], categories := [""], vector_strs := ["[]"] }) ∧
    (s.get_docs_in_collection col ≠ [] →
      (s.project_collection_to_arrow col).ids =
        (s.get_docs_in_collection col).map (fun d => d.id) ∧
      (s.project_collection_to_arrow col).texts =
        (s.get_docs_in_collection col).map (fun d => d.text) ∧
      (s.project_collection_to_arrow col).categories =
        (s.get_docs_in_collection col).map (fun d => d.category) ∧
      (s.project_collection_to_arrow col).vector_strs =
        (s.get_docs_in_collection col).map (fun d => jsonOfVector d.vector) ∧
      (s.project_collection_to_arrow col).ids.length =
        (s.get_docs_in_collection col).length) := by
  constructor
  · intro h
    apply project_empty
    rw [Storage.get_docs_in_collection] at h
    exact List.map_eq_nil_iff.mp h
  · intro h
    have hscan : scanPfx s.doc_tree (col ++ "/") ≠ [] := by
      intro heq
      apply h
      rw [Storage.get_docs_in_collection, heq]
      rfl
    rw [project_nonempty s col hscan]
    refine ⟨rfl, rfl, rfl, rfl, ?_⟩
    simp [List.length_map]

/-- Witness for C6: the fresh store projects collection "c" to the
sentinel batch. -/
theorem C6_projector_witness :
    (Storage.openFresh 100).project_collection_to_arrow "c" =
      { ids := [""], texts := [""], categories := [""], vector_strs := ["[]"] } :=
  (C6_projector (Storage.openFresh 100) "c").1 rfl

/-! ## Claim C7 -/

/-- Claim C7: hybrid_query returns at most top_k pairs, and the SQL text
it hands to the engine is exactly "SELECT * FROM docs" for the empty
filter and exactly "SELECT * FROM docs WHERE " followed by the filter
otherwise. -/
theorem C7_hybrid_shape (s : Storage) (col : String)
    (sqlExec : String → List ArrowBatch) (sql_filter : String)
    (query_vector : List F32) (top_k : Nat) :
    (QueryEngine.hybrid_query s col sqlExec sql_filter query_vector top_k).1.length ≤
      top_k ∧
    (sql_filter = "" → composeSql sql_filter = "SELECT * FROM docs") ∧
    (sql_filter ≠ "" →
      composeSql sql_filter = "SELECT * FROM docs WHERE " ++ sql_filter) := by
  refine ⟨?_, fun h => by rw [composeSql, if_pos h],
    fun h => by rw [composeSql, if_neg h]⟩
  show ((hydrateBatches s col (sqlExec (composeSql sql_filter))).1.take top_k).length ≤
    top_k
  rw [List.length_take]
  exact min_le_left _ _

/-- Witness for C7: the trivial SQL engine on a fresh store, both filter
shapes of the composed SQL evaluated. -/
theorem C7_hybrid_shape_witness :
    (QueryEngine.hybrid_query (Storage.openFresh 100) "c" (fun _ => []) "" []
      0).1.length ≤ 0 ∧
    composeSql "" = "SELECT * FROM docs" ∧
    composeSql "category = 1" = "SELECT * FROM docs WHERE " ++ "category = 1" := by
  refine ⟨(C7_hybrid_shape (Storage.openFresh 100) "c" (fun _ => []) "" [] 0).1,
    (C7_hybrid_shape (Storage.openFresh 100) "c" (fun _ => []) "" [] 0).2.1 rfl,
    (C7_hybrid_shape (Storage.openFresh 100) "c" (fun _ => []) "category = 1" []
      0).2.2 (by decide)⟩

/-! ## Claim C8 -/

/-- Claim C8: create_user errors with the AlreadyExists message exactly
when the username is a key of the users tree; in that case the state is
unchanged; otherwise it succeeds and get_user returns the stored user. -/
theorem C8_create_user (s : Storage) (u : User) :
    ((s.create_user u).1 = .error "User already exists" ↔
      (kvGet s.user_tree u.username).isSome = true) ∧
    ((kvGet s.user_tree u.username).isSome = true → (s.create_user u).2 = s) ∧
    ((kvGet s.user_tree u.username).isSome = false →
      (s.create_user u).1 = .ok () ∧
      (s.create_user u).2.get_user u.username = some u) := by
  by_cases hex : (kvGet s.user_tree u.username).isSome = true
  · rw [Storage.create_user, if_pos hex]
    refine ⟨⟨fun _ => hex, fun _ => rfl⟩, fun _ => rfl, fun hne => ?_⟩
    rw [hex] at hne
    simp at hne
  · rw [Storage.create_user, if_neg hex]
    refine ⟨⟨fun habs => ?_, fun hin => absurd hin hex⟩,
      fun hin => absurd hin hex, fun _ => ⟨rfl, ?_⟩⟩
    · exact absurd habs (by simp)
    · show kvGet (kvSet s.user_tree u.username u) u.username = some u
      exact kvGet_kvSet_self _ _ _

/-- Witness for C8 on the fresh store: creating the sample admin user
succeeds and is readable back. -/
theorem C8_create_user_witness :
    ((Storage.openFresh 100).create_user userAdmin).1 = .ok () ∧
    ((Storage.openFresh 100).create_user userAdmin).2.get_user "admin" =
      some userAdmin := by
  have h := (C8_create_user (Storage.openFresh 100) userAdmin).2.2 (by decide)
  exact ⟨h.1, h.2⟩

/-! ## Claim C9 -/

/-- Claim C9: tenant, environment and collection creation are
unconditional overwrites: create_tenant computes the same result and state
as update_tenant (likewise for environments), creation always succeeds
even when the id is already present, and the freshly created entity is
what a subsequent get returns. -/
theorem C9_create_is_overwrite (s : Storage) (t : Tenant) (e : Environment)
    (c : Collection) :
    s.create_tenant t = s.update_tenant t ∧
    (s.create_tenant t).1 = .ok () ∧
    (s.create_tenant t).2.get_tenant t.id = some t ∧
    s.create_environment e = s.update_environment e ∧
    (s.create_environment e).1 = .ok () ∧
    (s.create_environment e).2.get_environment e.id = some e ∧
    (s.create_collection c).1 = .ok () ∧
    (s.create_collection c).2.get_collection c.id = some c := by
  refine ⟨rfl, rfl, ?_, rfl, rfl, ?_, rfl, ?_⟩
  · show kvGet (kvSet s.tenant_tree t.id t) t.id = some t
    exact kvGet_kvSet_self _ _ _
  · show kvGet (kvSet s.env_tree e.id e) e.id = some e
    exact kvGet_kvSet_self _ _ _
  · show kvGet (kvSet s.collection_tree c.id c) c.id = some c
    exact kvGet_kvSet_self _ _ _

/-! ## Claim C10 -/

/-- get_doc_with_cache_status fails with NotFound when the key is absent
from both the cache and the docs tree, leaving the state untouched. -/
theorem wcs_error_of_absent (s : Storage) (key : String)
    (h1 : kvGet s.doc_cache.entries key = none)
    (h2 : kvGet s.doc_tree key = none) :
    s.get_doc_with_cache_status key = .error "Document not found" := by
  rw [Storage.get_doc_with_cache_status, DocCache.getOp, h1, h2]

theorem hydrateId_fail (col : String) (acc : List (Document × Bool) × Storage)
    (id : String)
    (h1 : kvGet acc.2.doc_cache.entries (col ++ "/" ++ id) = none)
    (h2 : kvGet acc.2.doc_tree (col ++ "/" ++ id) = none) :
    hydrateId col acc id = acc := by
  rw [hydrateId]
  show (match acc.2.get_doc_with_cache_status (col ++ "/" ++ id) with
    | .ok ((doc, from_cache), s1) => (acc.1 ++ [(doc, from_cache)], s1)
    | .error _ => acc) = acc
  rw [wcs_error_of_absent acc.2 (col ++ "/" ++ id) h1 h2]

theorem idsFold_fail (col : String) (ids : List String)
    (acc : List (Document × Bool) × Storage)
    (h : ∀ id ∈ ids, kvGet acc.2.doc_cache.entries (col ++ "/" ++ id) = none ∧
      kvGet acc.2.doc_tree (col ++ "/" ++ id) = none) :
    ids.foldl (hydrateId col) acc = acc := by
  induction ids with
  | nil => rfl
  | cons id rest ih =>
    have hid := h id (by simp)
    have hstep : hydrateId col acc id = acc := hydrateId_fail col acc id hid.1 hid.2
    show rest.foldl (hydrateId col) (hydrateId col acc id) = acc
    rw [hstep]
    exact ih (fun i hi => h i (by simp [hi]))

theorem hydrateBatches_fail (s : Storage) (col : String) (batches : List ArrowBatch)
    (h : ∀ b ∈ batches, ∀ id ∈ b.ids,
      kvGet s.doc_cache.entries (col ++ "/" ++ id) = none ∧
      kvGet s.doc_tree (col ++ "/" ++ id) = none) :
    hydrateBatches s col batches = ([], s) := by
  rw [hydrateBatches]
  induction batches with
  | nil => rfl
  | cons b rest ih =>
    have hstep : hydrateBatch col ([], s) b = ([], s) := by
      rw [hydrateBatch]
      exact idsFold_fail col b.ids ([], s) (h b (by simp))
    show rest.foldl (hydrateBatch col) (hydrateBatch col ([], s) b) = ([], s)
    rw [hstep]
    exact ih (fun b2 hb2 => h b2 (by simp [hb2]))

theorem kvGet_none_of_sublist {V : Type} {l1 l2 : List (String × V)} {k : String}
    (h : l1.Sublist l2) (hn : kvGet l2 k = none) : kvGet l1 k = none := by
  rw [kvGet_eq_none_iff] at *
  exact fun p hp => hn p (h.subset hp)

/-- The eviction loop only ever removes entries. -/
theorem evictFuel_entries_sublist (n : Nat) (needed : Nat) :
    ∀ c : DocCache, (evictFuel n c needed).entries.Sublist c.entries := by
  induction n with
  | zero => intro c; exact List.Sublist.refl _
  | succ n ih =>
    intro c
    by_cases hcond : c.size_bytes + needed > c.capacity_bytes
    · cases hpop : popBack c.lru_order with
      | none =>
        rw [evictFuel, if_pos hcond, hpop]
      | some p =>
        obtain ⟨rest, x⟩ := p
        cases hev : kvGet c.entries x with
        | some ev =>
          have hstep : evictFuel (n + 1) c needed =
              evictFuel n
                { c with
                  lru_order := rest
                  entries := kvErase c.entries x
                  size_bytes := c.size_bytes - ev.size_bytes } needed := by
            rw [evictFuel, if_pos hcond, hpop]
            simp only [hev]
          rw [hstep]
          exact (ih _).trans (kvErase_sublist c.entries x)
        | none =>
          have hstep : evictFuel (n + 1) c needed =
              evictFuel n { c with lru_order := rest } needed := by
            rw [evictFuel, if_pos hcond, hpop]
            simp only [hev]
          rw [hstep]
          exact ih _
    · rw [evictFuel, if_neg hcond]

/-- DocCache::insert adds at most the inserted key: any other key absent
before is absent after. -/
theorem insertOp_kvGet_none_other (c : DocCache) (id : String) (doc : Document)
    (k : String) (hne : k ≠ id) (hnone : kvGet c.entries k = none) :
    kvGet (c.insertOp id doc).entries k = none := by
  simp only [DocCache.insertOp]
  by_cases hbig : estimate_doc_size_bytes doc > c.capacity_bytes
  · rw [if_pos hbig]
    exact hnone
  · rw [if_neg hbig]
    rw [kvGet, if_neg (fun hh => hne hh.symm)]
    cases hex : kvGet c.entries id with
    | some existing =>
      exact kvGet_none_of_sublist
        ((evictFuel_entries_sublist _ _ _).trans (kvErase_sublist c.entries id)) hnone
    | none =>
      exact kvGet_none_of_sublist (evictFuel_entries_sublist _ _ _) hnone

theorem hydrationDead_iff (s : Storage) (col id : String) :
    hydrationDead s col id = true ↔
      (kvGet s.doc_cache.entries (col ++ "/" ++ id) = none ∧
       kvGet s.doc_tree (col ++ "/" ++ id) = none) := by
  simp [hydrationDead, Bool.and_eq_true, Option.isNone_iff_eq_none]

/-- A successful get_doc_with_cache_status leaves the docs tree unchanged
and caches at most the requested key, which it found in the docs tree:
every key absent from both the cache and the docs tree stays out of the
cache. -/
theorem wcs_ok_facts {s : Storage} {key : String} {d : Document} {fc : Bool}
    {s1 : Storage} (h : s.get_doc_with_cache_status key = .ok ((d, fc), s1)) :
    s1.doc_tree = s.doc_tree ∧
    (∀ kd, kvGet s.doc_cache.entries kd = none → kvGet s.doc_tree kd = none →
      kvGet s1.doc_cache.entries kd = none) := by
  rw [Storage.get_doc_with_cache_status, DocCache.getOp] at h
  cases hc : kvGet s.doc_cache.entries key with
  | some e =>
    rw [hc] at h
    rw [Except.ok.injEq, Prod.mk.injEq] at h
    obtain ⟨_, hs1⟩ := h
    rw [← hs1]
    exact ⟨rfl, fun kd hkd _ => hkd⟩
  | none =>
    rw [hc] at h
    cases hdt : kvGet s.doc_tree key with
    | none =>
      rw [hdt] at h
      exact absurd h (by simp)
    | some doc =>
      rw [hdt] at h
      rw [Except.ok.injEq, Prod.mk.injEq] at h
      obtain ⟨_, hs1⟩ := h
      rw [← hs1]
      refine ⟨rfl, fun kd hkd hkdt => ?_⟩
      have hne : kd ≠ key := by
        intro hh
        rw [hh, hdt] at hkdt
        exact Option.noConfusion hkdt
      exact insertOp_kvGet_none_other s.doc_cache key doc kd hne hkd

/-- One hydration step preserves the hydration invariant. -/
theorem hydrateId_inv (s0 : Storage) (col : String)
    (acc : List (Document × Bool) × Storage) (id0 : String)
    (hInv : hydrationInv s0 col acc.2) :
    hydrationInv s0 col ((hydrateId col acc id0).2) := by
  rw [hydrateId]
  show hydrationInv s0 col
    ((match acc.2.get_doc_with_cache_status (col ++ "/" ++ id0) with
      | .ok ((doc, from_cache), s1) => (acc.1 ++ [(doc, from_cache)], s1)
      | .error _ => acc).2)
  cases hres : acc.2.get_doc_with_cache_status (col ++ "/" ++ id0) with
  | error e => exact hInv
  | ok r =>
    obtain ⟨⟨d, fc⟩, s1⟩ := r
    show hydrationInv s0 col s1
    obtain ⟨htree, hpres⟩ := wcs_ok_facts hres
    constructor
    · rw [htree]
      exact hInv.1
    · intro id hdead
      apply hpres
      · exact hInv.2 id hdead
      · rw [hInv.1]
        exact ((hydrationDead_iff s0 col id).mp hdead).2

/-- Walking the ids of one batch: ids dead at the start of the run are
dropped with no effect on the accumulator or the state, however the live
ids interleave with them; the invariant carries to the final state. -/
theorem idsFold_filter (s0 : Storage) (col : String) (ids : List String) :
    ∀ acc : List (Document × Bool) × Storage, hydrationInv s0 col acc.2 →
      ids.foldl (hydrateId col) acc =
        (ids.filter (fun id => !(hydrationDead s0 col id))).foldl (hydrateId col) acc ∧
      hydrationInv s0 col ((ids.foldl (hydrateId col) acc).2) := by
  induction ids with
  | nil => exact fun acc h => ⟨rfl, h⟩
  | cons id0 rest ih =>
    intro acc hInv
    by_cases hdead : hydrationDead s0 col id0 = true
    · have hd := (hydrationDead_iff s0 col id0).mp hdead
      have hnoop : hydrateId col acc id0 = acc := by
        apply hydrateId_fail
        · exact hInv.2 id0 hdead
        · rw [hInv.1]
          exact hd.2
      have hfil : (id0 :: rest).filter (fun id => !(hydrationDead s0 col id)) =
          rest.filter (fun id => !(hydrationDead s0 col id)) := by
        rw [List.filter_cons]
        simp [hdead]
      constructor
      · show rest.foldl (hydrateId col) (hydrateId col acc id0) = _
        rw [hnoop, hfil]
        exact (ih acc hInv).1
      · show hydrationInv s0 col
          ((rest.foldl (hydrateId col) (hydrateId col acc id0)).2)
        rw [hnoop]
        exact (ih acc hInv).2
    · have hfalse : hydrationDead s0 col id0 = false := by
        cases h2 : hydrationDead s0 col id0
        · rfl
        · exact absurd h2 hdead
      have hInv' : hydrationInv s0 col ((hydrateId col acc id0).2) :=
        hydrateId_inv s0 col acc id0 hInv
      have hfil : (id0 :: rest).filter (fun id => !(hydrationDead s0 col id)) =
          id0 :: rest.filter (fun id => !(hydrationDead s0 col id)) := by
        rw [List.filter_cons]
        simp [hfalse]
      constructor
      · show rest.foldl (hydrateId col) (hydrateId col acc id0) = _
        rw [hfil]
        show _ = (rest.filter (fun id => !(hydrationDead s0 col id))).foldl
          (hydrateId col) (hydrateId col acc id0)
        exact (ih _ hInv').1
      · exact (ih _ hInv').2

/-- Whole-run form: ids dead at the start can be removed from every SQL
result batch without changing the hydration output or the final state. -/
theorem hydrateBatches_filter (s : Storage) (col : String)
    (batches : List ArrowBatch) :
    hydrateBatches s col batches =
      hydrateBatches s col (batches.map (dropDeadIds s col)) := by
  rw [hydrateBatches, hydrateBatches]
  have hInit : hydrationInv s col s :=
    ⟨rfl, fun id hdead => ((hydrationDead_iff s col id).mp hdead).1⟩
  suffices h : ∀ acc : List (Document × Bool) × Storage, hydrationInv s col acc.2 →
      batches.foldl (hydrateBatch col) acc =
        (batches.map (dropDeadIds s col)).foldl (hydrateBatch col) acc ∧
      hydrationInv s col ((batches.foldl (hydrateBatch col) acc).2) by
    exact (h ([], s) hInit).1
  induction batches with
  | nil => exact fun acc h => ⟨rfl, h⟩
  | cons b rest ih =>
    intro acc hInv
    have hb : hydrateBatch col acc (dropDeadIds s col b) = hydrateBatch col acc b := by
      rw [hydrateBatch, hydrateBatch]
      show (dropDeadIds s col b).ids.foldl (hydrateId col) acc =
        b.ids.foldl (hydrateId col) acc
      have hids : (dropDeadIds s col b).ids =
          b.ids.filter (fun id => !(hydrationDead s col id)) := rfl
      rw [hids]
      exact ((idsFold_filter s col b.ids acc hInv).1).symm
    have hInv' : hydrationInv s col ((hydrateBatch col acc b).2) := by
      rw [hydrateBatch]
      exact (idsFold_filter s col b.ids acc hInv).2
    constructor
    · show rest.foldl (hydrateBatch col) (hydrateBatch col acc b) = _
      rw [List.map_cons]
      show _ = (rest.map (dropDeadIds s col)).foldl (hydrateBatch col)
        (hydrateBatch col acc (dropDeadIds s col b))
      rw [hb]
      exact (ih _ hInv').1
    · show hydrationInv s col
        ((rest.foldl (hydrateBatch col) (hydrateBatch col acc b)).2)
      exact (ih _ hInv').2

/-- Claim C10: hybrid_query silently drops any id whose document
hydration fails rather than returning an error. First, per id row: a
hydration step on an id whose compound key is absent from both the cache
and the docs tree returns the accumulator unchanged — no pair is appended
and no error surfaces, whatever pairs the surrounding (possibly mixed)
run has accumulated. Second, whole runs: ids dead at the start of the run
can be removed from every SQL result batch without changing the
hybrid_query output or state (the docs tree never changes during
hydration and hydration only caches keys found in the docs tree, so ids
dead at the start stay dead throughout). Third, in particular, on a
collection with zero documents and the empty filter, with the SQL engine
returning the registered projection batch for the SELECT-all query, the
projector sentinel row never surfaces and hybrid_query returns the empty
list. -/
theorem C10_hybrid_drops_failed_hydration (s : Storage) (col : String)
    (sqlExec : String → List ArrowBatch) (sql_filter : String)
    (query_vector : List F32) (top_k : Nat) :
    (∀ (acc : List (Document × Bool) × Storage) (id : String),
      kvGet acc.2.doc_cache.entries (col ++ "/" ++ id) = none →
      kvGet acc.2.doc_tree (col ++ "/" ++ id) = none →
      hydrateId col acc id = acc) ∧
    QueryEngine.hybrid_query s col sqlExec sql_filter query_vector top_k =
      QueryEngine.hybrid_query s col
        (fun sql => (sqlExec sql).map (dropDeadIds s col))
        sql_filter query_vector top_k ∧
    (scanPfx s.doc_tree (col ++ "/") = [] →
      (∀ key e, kvGet s.doc_cache.entries key = some e →
        hasPfx (col ++ "/") key = false) →
      (QueryEngine.hybrid_query s col
        (fun _ => [s.project_collection_to_arrow col]) "" query_vector top_k).1 = []) := by
  refine ⟨fun acc id h1 h2 => hydrateId_fail col acc id h1 h2, ?_, ?_⟩
  · show ((hydrateBatches s col (sqlExec (composeSql sql_filter))).1.take top_k,
        (hydrateBatches s col (sqlExec (composeSql sql_filter))).2) =
      ((hydrateBatches s col
          ((sqlExec (composeSql sql_filter)).map (dropDeadIds s col))).1.take top_k,
        (hydrateBatches s col
          ((sqlExec (composeSql sql_filter)).map (dropDeadIds s col))).2)
    rw [hydrateBatches_filter s col (sqlExec (composeSql sql_filter))]
  · intro hscan hcache
    show ((hydrateBatches s col [s.project_collection_to_arrow col]).1.take top_k) = []
    have hsent : s.project_collection_to_arrow col =
        { ids := [""], texts := [""], categories := [""], vector_strs := ["[]"] } :=
      project_empty s col hscan
    have hkey : (col ++ "/" ++ "" : String) = col ++ "/" := String.append_empty _
    have hpfx : hasPfx (col ++ "/") (col ++ "/" ++ "") = true := by
      rw [hkey, hasPfx]
      exact List.isPrefixOf_iff_prefix.mpr (List.prefix_refl _)
    have habs : ∀ b ∈ [s.project_collection_to_arrow col], ∀ id ∈ b.ids,
        kvGet s.doc_cache.entries (col ++ "/" ++ id) = none ∧
        kvGet s.doc_tree (col ++ "/" ++ id) = none := by
      intro b hb id hid
      rw [List.mem_singleton] at hb
      subst hb
      rw [hsent] at hid
      rw [List.mem_singleton] at hid
      subst hid
      constructor
      · cases hg : kvGet s.doc_cache.entries (col ++ "/" ++ "") with
        | none => rfl
        | some e =>
          have := hcache (col ++ "/" ++ "") e hg
          rw [hpfx] at this
          simp at this
      · exact scanPfx_eq_nil_kvGet hscan _ hpfx
    rw [hydrateBatches_fail s col _ habs]
    simp

/-- Witness for C10, exercising a real failed hydration in a mixed run:
at storageMix (document "x" stored and cached), hydrating the dead id
"ghost" appends nothing and changes nothing; the hybrid run over the
mixed batch ["x", "ghost"] equals the run over the batches with dead ids
removed, evaluates to exactly the one pair for "x" (the dropped "ghost"
attempt happens between the successful lookup and the truncation), and
the dead-id filter really removes "ghost" and keeps "x"; finally the
sentinel conjunct evaluated on the fresh store returns the empty list. -/
theorem C10_hybrid_drops_failed_hydration_witness :
    hydrateId "c" ([], storageMix) "ghost" = ([], storageMix) ∧
    QueryEngine.hybrid_query storageMix "c" ghostEngine "" [] 5 =
      QueryEngine.hybrid_query storageMix "c"
        (fun sql => (ghostEngine sql).map (dropDeadIds storageMix "c")) "" [] 5 ∧
    (QueryEngine.hybrid_query storageMix "c" ghostEngine "" [] 5).1 =
      [(docXSmall, true)] ∧
    (ghostEngine "SELECT * FROM docs").map (dropDeadIds storageMix "c") =
      [{ ids := ["x"], texts := ["", ""], categories := ["", ""],
         vector_strs := ["[]", "[]"] }] ∧
    (QueryEngine.hybrid_query (Storage.openFresh 100) "c"
      (fun _ => [(Storage.openFresh 100).project_collection_to_arrow "c"])
      "" [] 5).1 = [] := by
  refine ⟨(C10_hybrid_drops_failed_hydration storageMix "c" ghostEngine "" []
      5).1 ([], storageMix) "ghost" rfl rfl,
    (C10_hybrid_drops_failed_hydration storageMix "c" ghostEngine "" [] 5).2.1,
    rfl, rfl,
    (C10_hybrid_drops_failed_hydration (Storage.openFresh 100) "c"
      (fun _ => [(Storage.openFresh 100).project_collection_to_arrow "c"]) "" []
      5).2.2 rfl (fun key e he =>
        False.elim (Option.noConfusion
          (show (none : Option CacheEntry) = some e from he)))⟩
